import Mathlib

/-!
ProUI custom G-codes and mesh viewer.

A shallow embedding of two files of the Ender-3 V2 ProUI firmware:

* `Marlin/src/lcd/e3v2/proui/custom_gcodes.cpp` : the `customGcode` dispatcher and the
  `C35` bed-tramming handler;
* `Marlin/src/lcd/e3v2/proui/meshviewer.cpp` : the mesh viewer layout macros (`px`, `py`, `r`),
  `DrawMeshGrid`, `DrawMeshPoint` and `DrawMesh`.

Conventions.  C `int` values are `Int` (the target is a 32-bit ARM and no intermediate value of
the formulas below leaves the 32-bit range); C integer division is `Int.tdiv` (truncation toward
zero) and has no result on a zero divisor (`cdiv`, and the `_checked` runs built on it);
narrowing to `int8_t`, `int16_t` and `uint8_t` keeps the low bits and is written with an
explicit `%`; the `float` product `z * 100` is the exact product rounded to the nearest binary32
value (`f32round`).  Effects on external collaborators (handlers, drawing primitives, the
watchdog) are recorded as events in a list, in program order.
-/

namespace ProUI

/-! ## custom_gcodes.cpp -/

/-- The preprocessor switches that gate parts of `custom_gcodes.cpp`. -/
structure Features where
  HAS_CUSTOM_COLORS : Bool
  LCD_BED_TRAMMING : Bool
  HAS_GCODE_PREVIEW : Bool
  HAS_LOCKSCREEN : Bool
  DEBUG_DWIN : Bool
  PROUI_EX : Bool
  HAS_MEDIA : Bool
  HAS_MESH : Bool
  NOZZLE_PARK_FEATURE : Bool
  HAS_PROUI_RUNOUT_SENSOR : Bool
  HAS_TOOLBAR : Bool
  HAS_BED_PROBE : Bool
  deriving DecidableEq, Repr

/-- Every feature gate enabled. -/
def Features.all : Features :=
  { HAS_CUSTOM_COLORS := true, LCD_BED_TRAMMING := true, HAS_GCODE_PREVIEW := true,
    HAS_LOCKSCREEN := true, DEBUG_DWIN := true, PROUI_EX := true, HAS_MEDIA := true,
    HAS_MESH := true, NOZZLE_PARK_FEATURE := true, HAS_PROUI_RUNOUT_SENSOR := true,
    HAS_TOOLBAR := true, HAS_BED_PROBE := true }

/-- The functions `customGcode` can invoke: the unknown-command path `cError`, the handlers
defined in `custom_gcodes.cpp` and the `proUIEx` handlers. -/
inductive Handler where
  | cError
  | C11 | C35 | C108 | C250 | C510 | C997
  | C10 | C29 | C100 | C101 | C102 | C104 | C115 | C125 | C412 | C562 | C851 | C810
  deriving DecidableEq, Repr

/-- The calls `customGcode` and `cError` make on the G-code parser. -/
inductive ParserCall where
  | unknown_command_warning
  deriving DecidableEq, Repr

/-- The body of `cError`: `parser.unknown_command_warning();`. -/
def cError : List ParserCall := [ParserCall.unknown_command_warning]

/-- The numeric code in a handler's name (`C108` is the handler of code 108); `cError` is the
unknown-command path and has none. -/
def Handler.code : Handler → Option Int
  | .cError => none
  | .C11 => some 11 | .C35 => some 35 | .C108 => some 108 | .C250 => some 250
  | .C510 => some 510 | .C997 => some 997
  | .C10 => some 10 | .C29 => some 29 | .C100 => some 100 | .C101 => some 101
  | .C102 => some 102 | .C104 => some 104 | .C115 => some 115 | .C125 => some 125
  | .C412 => some 412 | .C562 => some 562 | .C851 => some 851 | .C810 => some 810

/-- The codes listed as known: 10/11/29/35/100-102/104/108/115/125/250/412/510/562/810/851/997. -/
def knownCodes : List Int :=
  [10, 11, 29, 35, 100, 101, 102, 104, 108, 115, 125, 250, 412, 510, 562, 810, 851, 997]

/-- A `case` label that exists only when its `#if` gate is on: with the gate off the label is
absent and the code reaches `default: cError()`. -/
def gated (gate : Bool) (h : Handler) : List Handler :=
  if gate then [h] else [Handler.cError]

/-- The `switch` of `customGcode(const int16_t codenum)`: the list of functions it invokes, in
order.  Every `case` ends in `break`, so a run invokes one function. -/
def customGcode (f : Features) (codenum : Int) : List Handler :=
  if codenum = 11 then gated f.HAS_CUSTOM_COLORS .C11
  else if codenum = 35 then gated f.LCD_BED_TRAMMING .C35
  else if codenum = 108 then [.C108]
  else if codenum = 250 then gated f.HAS_GCODE_PREVIEW .C250
  else if codenum = 510 then gated f.HAS_LOCKSCREEN .C510
  else if codenum = 997 then gated f.DEBUG_DWIN .C997
  else if codenum = 10 then gated (f.PROUI_EX && f.HAS_MEDIA) .C10
  else if codenum = 29 then gated (f.PROUI_EX && f.HAS_MESH) .C29
  else if codenum = 100 then gated f.PROUI_EX .C100
  else if codenum = 101 then gated f.PROUI_EX .C101
  else if codenum = 102 then gated f.PROUI_EX .C102
  else if codenum = 104 then gated f.PROUI_EX .C104
  else if codenum = 115 then gated f.PROUI_EX .C115
  else if codenum = 125 then gated (f.PROUI_EX && f.NOZZLE_PARK_FEATURE) .C125
  else if codenum = 412 then gated (f.PROUI_EX && f.HAS_PROUI_RUNOUT_SENSOR) .C412
  else if codenum = 562 then gated f.PROUI_EX .C562
  else if codenum = 851 then gated f.PROUI_EX .C851
  else if codenum = 810 then gated (f.PROUI_EX && f.HAS_TOOLBAR) .C810
  else [.cError]

/-- Narrowing of a byte to `int8_t`: the low 8 bits read as a signed value. -/
def toInt8 (n : Int) : Int := (n + 128) % 256 - 128

/-- Modelled from the spec: macro `WITHIN(N, L, H)` of Marlin's `macros.h`, which these files
only use; it tests the range: `L <= N && N <= H`. -/
def WITHIN (n l h : Int) : Bool := decide (l ≤ n) && decide (n ≤ h)

/-- What `C35` reads from the G-code parser: the result of `parser.seenval('T')` and the
`uint8_t` that `parser.value_byte()` returns. -/
structure TParam where
  seenval : Bool
  value_byte : Fin 256
  deriving DecidableEq, Repr

/-- The functions `C35` can invoke. -/
inductive TramCall where
  | tram (i : Int)
  | trammingwizard
  deriving DecidableEq, Repr

/-- Handler `C35`: the calls it makes, in order.  `TERN_(HAS_BED_PROBE, else trammingwizard())`
adds the `else` branch only when a bed probe is configured. -/
def C35 (f : Features) (p : TParam) : List TramCall :=
  if p.seenval then
    let i : Int := toInt8 (p.value_byte.val : Int)
    if WITHIN i 0 4 then [.tram i] else []
  else
    if f.HAS_BED_PROBE then [.trammingwizard] else []

/-! ## meshviewer.cpp -/

/-- Modelled from the spec: the display width `DWIN_WIDTH`, a constant of the display driver
headers that these files only use; the fixed display bound is 272 pixels. -/
def DWIN_WIDTH : Int := 272

/-- `#define margin 25` : XY margins. -/
def margin : Int := 25

/-- `#define rmin 5` : minimum radius. -/
def rmin : Int := 5

/-- `#define zmin -20` : rmin at z=-0.20. -/
def zmin : Int := -20

/-- `#define zmax 20` : rmax at z= 0.20. -/
def zmax : Int := 20

/-- `#define width DWIN_WIDTH - 2 * margin`; every use in the file is parenthesised or stands
alone as an argument, so the macro behaves as this value. -/
def width : Int := DWIN_WIDTH - 2 * margin

/-- A `float` height sample: NaN or a finite number, held as the rational it is (every finite
float is one).  Infinite samples are not represented. -/
inductive Height where
  | nan
  | val (q : ℚ)
  deriving DecidableEq

/-- `isnan(z)`. -/
def Height.isnan : Height → Bool
  | .nan => true
  | .val _ => false

/-- The float comparison `a < b`: false as soon as one side is NaN. -/
def Height.lt : Height → Height → Bool
  | .val a, .val b => decide (a < b)
  | _, _ => false

/-- Modelled from the spec: `round`, a function of the C library / Arduino core that these
files only call; it rounds to the nearest integer, halves away from zero
(`x >= 0 ? (long)(x + 0.5) : (long)(x - 0.5)`). -/
def roundAway (q : ℚ) : Int := if 0 ≤ q then ⌊q + 1 / 2⌋ else ⌈q - 1 / 2⌉

/-- Rounding to the nearest integer, a tie going to the even one: the rounding of the
significand in binary floating point. -/
def roundEven (q : ℚ) : Int :=
  if q - ⌊q⌋ < 1 / 2 then ⌊q⌋
  else if 1 / 2 < q - ⌊q⌋ then ⌊q⌋ + 1
  else if ⌊q⌋ % 2 = 0 then ⌊q⌋ else ⌊q⌋ + 1

/-- The exponent of the spacing of `float` (binary32) values around a positive `q`: 24
significant bits, and the spacing `2 ^ (-149)` of the subnormal range below `2 ^ (-126)`. -/
def f32exp (q : ℚ) : Int := max (Int.log 2 q) (-126) - 23

/-- The `float` nearest to a non-negative `q`. -/
def f32pos (q : ℚ) : ℚ := (roundEven (q / (2 : ℚ) ^ f32exp q) : ℚ) * (2 : ℚ) ^ f32exp q

/-- The result of a `float` operation whose exact result is `q`: the nearest binary32 value, a
tie going to the even significand.  (Beyond the largest finite `float` the C result is infinite
and its conversion to an integer is undefined; here the exponent is unbounded.) -/
def f32round (q : ℚ) : ℚ := if 0 ≤ q then f32pos q else -f32pos (-q)

/-- The value `round(z * 100)` of `DrawMeshPoint` for a height `z`: the product is a `float`
multiplication (`100` is converted to `float`), then `round`. -/
def scaledHeight (q : ℚ) : Int := roundAway (f32round (q * 100))

/-- Narrowing to `int16_t`: the low 16 bits read as a signed value. -/
def toInt16 (n : Int) : Int := (n + 32768) % 65536 - 32768

/-- Narrowing to `uint8_t`: the low 8 bits. -/
def toUInt8 (n : Int) : Int := n % 256

/-- Conversion of a floating value to an integer type: the fraction is discarded. -/
def truncToInt (q : ℚ) : Int := if 0 ≤ q then ⌊q⌋ else ⌈q⌉

/-- Modelled from the spec: macro `LIMIT(v, n1, n2)` of Marlin's `macros.h`, which these files
only use; it clamps `v` into `[n1, n2]`: `if (n1 > v) v = n1; else if (n2 < v) v = n2;`. -/
def LIMIT (v n1 n2 : Int) : Int := if n1 > v then n1 else if n2 < v then n2 else v

/-- Modelled from the spec: macro `NOLESS(v, n)` of Marlin's `macros.h`, which these files only
use; it keeps a running maximum: `if (n > v) v = n;`. -/
def NOLESS (v n : Height) : Height := if Height.lt v n then n else v

/-- Modelled from the spec: macro `NOMORE(v, n)` of Marlin's `macros.h`, which these files only
use; it keeps a running minimum: `if (n < v) v = n;`. -/
def NOMORE (v n : Height) : Height := if Height.lt n v then n else v

/-- `#define r(z) ((z-zmin)*(rmax-rmin)/(zmax-zmin)+rmin)` in `int` arithmetic, with the global
`rmax` passed explicitly. -/
def r (rmax : Int) (z : Int) : Int :=
  Int.tdiv ((z - zmin) * (rmax - rmin)) (zmax - zmin) + rmin

/-- `#define px(xp) (margin + (xp)*(width)/(sizex - 1))` in `int` arithmetic, with the global
`sizex` passed explicitly: the value of the macro where its divisor `sizex - 1` is not zero.
The division by zero at `sizex = 1` is in `px_checked`. -/
def px (sizex : Nat) (xp : Int) : Int :=
  margin + Int.tdiv (xp * width) ((sizex : Int) - 1)

/-- `#define py(yp) (30 + DWIN_WIDTH - margin - (yp)*(width)/(sizey - 1))` in `int` arithmetic,
with the global `sizey` passed explicitly: the value of the macro where its divisor `sizey - 1`
is not zero.  The division by zero at `sizey = 1` is in `py_checked`. -/
def py (sizey : Nat) (yp : Int) : Int :=
  30 + DWIN_WIDTH - margin - Int.tdiv (yp * width) ((sizey : Int) - 1)

/-- The value `DrawMeshGrid` stores in `rmax`:
`rmax = _MIN(margin - 2, 0.5*(width)/(sizex - 1))`, computed in `double` and truncated on the
assignment to the `uint8_t`.  For `sizex = 1` the `double` division by zero gives `+infinity`
and `_MIN` keeps `margin - 2`.  (For `sizex = 0` the quotient is negative and its conversion to
`uint8_t` is undefined in C; the low 8 bits are taken.) -/
def rmaxOf (sizex : Nat) : Int :=
  if (sizex : Int) - 1 = 0 then toUInt8 (margin - 2)
  else toUInt8 (truncToInt (min (((margin - 2 : Int) : ℚ))
    ((1 / 2 : ℚ) * ((width : Int) : ℚ) / ((((sizex : Int) - 1 : Int)) : ℚ))))

/-- What the mesh viewer does to its collaborators, in program order: the entry of
`DrawMeshGrid` and `DrawMeshPoint` with their arguments, the watchdog refresh, and the drawing
primitives.  `Draw_FillCircle` carries the index `v` of its colour `RainbowInt(v, zmin, zmax)`. -/
inductive Ev where
  | DrawMeshGrid (csizex csizey : Nat)
  | DrawMeshPoint (x y : Nat) (z : Height)
  | watchdog_refresh
  | ClearMainArea
  | Draw_Rectangle (xStart yStart xEnd yEnd : Int)
  | Draw_VLine (xStart yStart vlength : Int)
  | Draw_HLine (xStart yStart xLength : Int)
  | Draw_FillCircle (v x y radius : Int)
  deriving DecidableEq

/-- The events that are calls made by `DrawMesh` itself. -/
def Ev.isCall : Ev → Bool
  | .DrawMeshGrid _ _ => true
  | .DrawMeshPoint _ _ _ => true
  | .watchdog_refresh => true
  | _ => false

/-- The events that are entries of `DrawMeshPoint`. -/
def Ev.isPoint : Ev → Bool
  | .DrawMeshPoint _ _ _ => true
  | _ => false

/-- The file-level variables of `meshviewer.cpp` (`sizex`, `sizey`, `rmax`,
`MeshViewerClass::max`, `MeshViewerClass::min`) and the log of events so far. -/
structure MeshViewer where
  sizex : Nat
  sizey : Nat
  rmax : Int
  max : Height
  min : Height
  log : List Ev

/-- Append one event to the log. -/
def MeshViewer.emit (s : MeshViewer) (e : Ev) : MeshViewer :=
  { s with log := s.log ++ [e] }

/-- The loop `for (uint8_t VAR = i; ...; ++VAR) body` with `k` iterations left. -/
def loopN {σ : Type} (body : Nat → σ → σ) : Nat → Nat → σ → σ
  | 0, _, s => s
  | k + 1, i, s => loopN body k (i + 1) (body i s)

/-- Modelled from the spec: macro `LOOP_S_L_N(VAR, S, N)` of Marlin's `macros.h`, which these
files only use: `for (uint8_t VAR = S; VAR < N; ++VAR)`.  The bounds here are `uint8_t` values,
so the counter does not wrap and the body runs for `VAR = S, ..., N - 1`. -/
def LOOP_S_L_N {σ : Type} (S N : Nat) (body : Nat → σ → σ) (s : σ) : σ :=
  loopN body (N - S) S s

/-- Modelled from the spec: macro `LOOP_L_N(VAR, N)` of Marlin's `macros.h`:
`LOOP_S_L_N(VAR, 0, N)`. -/
def LOOP_L_N {σ : Type} (N : Nat) (body : Nat → σ → σ) (s : σ) : σ :=
  LOOP_S_L_N 0 N body s

/-- `MeshViewerClass::DrawMeshGrid(csizex, csizey)`: the state it leaves when no division by
zero occurs.  `DrawMeshGrid_checked` is the run with the divisions checked. -/
def DrawMeshGrid (csizex csizey : Nat) (s : MeshViewer) : MeshViewer :=
  let s := s.emit (.DrawMeshGrid csizex csizey)
  let s := { s with sizex := csizex }
  let s := { s with sizey := csizey }
  let s := { s with rmax := rmaxOf s.sizex }
  let s := { s with min := .val 100 }
  let s := { s with max := .val (-100) }
  let s := s.emit .ClearMainArea
  let s := s.emit (.Draw_Rectangle (px s.sizex 0) (py s.sizey 0)
    (px s.sizex ((s.sizex : Int) - 1)) (py s.sizey ((s.sizey : Int) - 1)))
  let s := LOOP_S_L_N 1 (s.sizex - 1)
    (fun x t => t.emit (.Draw_VLine (px t.sizex x) (py t.sizey ((t.sizey : Int) - 1)) width)) s
  LOOP_S_L_N 1 (s.sizey - 1)
    (fun y t => t.emit (.Draw_HLine (px t.sizex 0) (py t.sizey y) width)) s

/-- The height index of `DrawMeshPoint`:
`int16_t v = isnan(z) ? 0 : round(z * 100); LIMIT(v, zmin, zmax);`. -/
def heightIndex (z : Height) : Int :=
  let v : Int := toInt16 (match z with
    | .nan => 0
    | .val q => scaledHeight q)
  LIMIT v zmin zmax

/-- `MeshViewerClass::DrawMeshPoint(x, y, z)` up to the circle: the state it leaves when no
division by zero occurs (`DrawMeshPoint_checked` is the run with the divisions checked).  The
text label drawn after the circle reads `v`, `z` and the layout but changes none of the
variables, and is left out. -/
def DrawMeshPoint (x y : Nat) (z : Height) (s : MeshViewer) : MeshViewer :=
  let s := s.emit (.DrawMeshPoint x y z)
  let v := heightIndex z
  let s := { s with max := NOLESS s.max z }
  let s := { s with min := NOMORE s.min z }
  s.emit (.Draw_FillCircle v (px s.sizex x) (py s.sizey y) (r s.rmax v))

/-- `MeshViewerClass::DrawMesh(zval, csizex, csizey)`; `zval x y` is `zval[x][y]`: the state
it leaves when no division by zero occurs.  `DrawMesh_checked` is the run with the divisions
checked. -/
def DrawMesh (zval : Nat → Nat → Height) (csizex csizey : Nat) (s : MeshViewer) : MeshViewer :=
  let s := DrawMeshGrid csizex csizey s
  LOOP_L_N csizey (fun y t =>
    let t := t.emit .watchdog_refresh
    LOOP_L_N csizex (fun x u => DrawMeshPoint x y (zval x y) u) t) s

/-- C integer division `a / b`: undefined on a zero divisor, truncating toward zero
otherwise. -/
def cdiv (a b : Int) : Option Int := if b = 0 then none else some (Int.tdiv a b)

/-- The macro `px(xp)` with its division checked: no value for `sizex = 1`. -/
def px_checked (sizex : Nat) (xp : Int) : Option Int :=
  (cdiv (xp * width) ((sizex : Int) - 1)).map (fun q => margin + q)

/-- The macro `py(yp)` with its division checked: no value for `sizey = 1`. -/
def py_checked (sizey : Nat) (yp : Int) : Option Int :=
  (cdiv (yp * width) ((sizey : Int) - 1)).map (fun q => 30 + DWIN_WIDTH - margin - q)

/-- The counted loop `for (uint8_t VAR = i; ...; ++VAR) body` with `k` iterations left, for a
body that may fail: the loop stops at the first failure. -/
def loopM {σ : Type} (body : Nat → σ → Option σ) : Nat → Nat → σ → Option σ
  | 0, _, s => some s
  | k + 1, i, s => (body i s).bind (fun t => loopM body k (i + 1) t)

/-- `MeshViewerClass::DrawMeshGrid(csizex, csizey)` with every division checked: the run has no
result when `px` or `py` divides by zero.  The first such division in the source text is `px(0)`
in the arguments of `DWIN_Draw_Rectangle`; a compiled program may fold `0 / d` and stop at a
later division instead. -/
def DrawMeshGrid_checked (csizex csizey : Nat) (s : MeshViewer) : Option MeshViewer := do
  let s := s.emit (.DrawMeshGrid csizex csizey)
  let s := { s with sizex := csizex }
  let s := { s with sizey := csizey }
  let s := { s with rmax := rmaxOf s.sizex }
  let s := { s with min := .val 100 }
  let s := { s with max := .val (-100) }
  let s := s.emit .ClearMainArea
  let x0 ← px_checked s.sizex 0
  let y0 ← py_checked s.sizey 0
  let x1 ← px_checked s.sizex ((s.sizex : Int) - 1)
  let y1 ← py_checked s.sizey ((s.sizey : Int) - 1)
  let s := s.emit (.Draw_Rectangle x0 y0 x1 y1)
  let s ← loopM (fun x t => do
    let a ← px_checked t.sizex x
    let b ← py_checked t.sizey ((t.sizey : Int) - 1)
    pure (t.emit (.Draw_VLine a b width))) (s.sizex - 1 - 1) 1 s
  loopM (fun y t => do
    let a ← px_checked t.sizex 0
    let b ← py_checked t.sizey y
    pure (t.emit (.Draw_HLine a b width))) (s.sizey - 1 - 1) 1 s

/-- `MeshViewerClass::DrawMeshPoint(x, y, z)` up to the circle, with every division checked. -/
def DrawMeshPoint_checked (x y : Nat) (z : Height) (s : MeshViewer) : Option MeshViewer := do
  let s := s.emit (.DrawMeshPoint x y z)
  let v := heightIndex z
  let s := { s with max := NOLESS s.max z }
  let s := { s with min := NOMORE s.min z }
  let a ← px_checked s.sizex x
  let b ← py_checked s.sizey y
  pure (s.emit (.Draw_FillCircle v a b (r s.rmax v)))

/-- `MeshViewerClass::DrawMesh(zval, csizex, csizey)` with every division checked: the run of
the source, without a result when a division by zero occurs. -/
def DrawMesh_checked (zval : Nat → Nat → Height) (csizex csizey : Nat) (s : MeshViewer) :
    Option MeshViewer := do
  let s ← DrawMeshGrid_checked csizex csizey s
  loopM (fun y t =>
    loopM (fun x u => DrawMeshPoint_checked x y (zval x y) u) csizex 0
      (t.emit .watchdog_refresh)) csizey 0 s

/-- A viewer state to start from: nothing drawn yet. -/
def MeshViewer.init : MeshViewer :=
  { sizex := 0, sizey := 0, rmax := 0, max := .val 0, min := .val 0, log := [] }

/-- The calls the claim about `DrawMesh` describes: one `DrawMeshGrid`, then for every row `y`
in increasing order one watchdog refresh followed by `DrawMeshPoint(x, y, zval[x][y])` for every
`x` in increasing order. -/
def expectedCalls (zval : Nat → Nat → Height) (csizex csizey : Nat) : List Ev :=
  Ev.DrawMeshGrid csizex csizey ::
    (List.range csizey).flatMap (fun y =>
      Ev.watchdog_refresh :: (List.range csizex).map (fun x => Ev.DrawMeshPoint x y (zval x y)))

/-- The running extremes are right for the cells selected by `seen`: `min` is the least of 100
and the non-NaN heights of those cells, `max` the greatest of -100 and those heights. -/
def Tracks (zval : Nat → Nat → Height) (seen : Nat → Nat → Prop) (s : MeshViewer) : Prop :=
  (∃ m : ℚ, s.min = Height.val m ∧
    IsLeast (insert 100 {q | ∃ a b, seen a b ∧ zval a b = Height.val q}) m) ∧
  (∃ m : ℚ, s.max = Height.val m ∧
    IsGreatest (insert (-100) {q | ∃ a b, seen a b ∧ zval a b = Height.val q}) m)

/-! ## Loops and the state after `DrawMeshGrid` -/

/-- Invariant rule for the counted loop. -/
theorem loopN_inv {σ : Type} (P : Nat → σ → Prop) (body : Nat → σ → σ) :
    ∀ (k i : Nat) (s : σ), P i s →
      (∀ j t, i ≤ j → j < i + k → P j t → P (j + 1) (body j t)) →
      P (i + k) (loopN body k i s) := by
  intro k
  induction k with
  | zero => intro i s h _; simpa [loopN] using h
  | succ k ih =>
    intro i s h hstep
    have h1 : P (i + 1) (body i s) := hstep i s (le_refl _) (by omega) h
    have h2 := ih (i + 1) (body i s) h1
      (fun j t hj hlt hP => hstep j t (by omega) (by omega) hP)
    have e : i + (k + 1) = i + 1 + k := by omega
    rw [e]
    simpa [loopN] using h2

/-- A loop whose body only emits drawing primitives leaves the variables and the calls in the
log as they were, and keeps what was logged. -/
theorem loopN_emit (ev : Nat → MeshViewer → Ev) (hnc : ∀ i t, (ev i t).isCall = false) :
    ∀ (k i : Nat) (s : MeshViewer),
      (loopN (fun x t => t.emit (ev x t)) k i s).sizex = s.sizex ∧
      (loopN (fun x t => t.emit (ev x t)) k i s).sizey = s.sizey ∧
      (loopN (fun x t => t.emit (ev x t)) k i s).rmax = s.rmax ∧
      (loopN (fun x t => t.emit (ev x t)) k i s).min = s.min ∧
      (loopN (fun x t => t.emit (ev x t)) k i s).max = s.max ∧
      (loopN (fun x t => t.emit (ev x t)) k i s).log.filter Ev.isCall =
        s.log.filter Ev.isCall ∧
      ∀ e ∈ s.log, e ∈ (loopN (fun x t => t.emit (ev x t)) k i s).log := by
  intro k
  induction k with
  | zero => intro i s; simp [loopN]
  | succ k ih =>
    intro i s
    obtain ⟨h1, h2, h3, h4, h5, h6, h7⟩ := ih (i + 1) (s.emit (ev i s))
    simp only [loopN]
    refine ⟨h1, h2, h3, h4, h5, ?_, ?_⟩
    · rw [h6]
      simp [MeshViewer.emit, List.filter_append, hnc]
    · intro e he
      exact h7 e (by simp [MeshViewer.emit, he])

/-- The variables after `DrawMeshGrid`, its call entry, and the frame rectangle it draws. -/
theorem DrawMeshGrid_state (csizex csizey : Nat) (s : MeshViewer) :
    (DrawMeshGrid csizex csizey s).sizex = csizex ∧
    (DrawMeshGrid csizex csizey s).sizey = csizey ∧
    (DrawMeshGrid csizex csizey s).rmax = rmaxOf csizex ∧
    (DrawMeshGrid csizex csizey s).min = Height.val 100 ∧
    (DrawMeshGrid csizex csizey s).max = Height.val (-100) ∧
    (DrawMeshGrid csizex csizey s).log.filter Ev.isCall =
      s.log.filter Ev.isCall ++ [Ev.DrawMeshGrid csizex csizey] ∧
    Ev.Draw_Rectangle (px csizex 0) (py csizey 0) (px csizex ((csizex : Int) - 1))
      (py csizey ((csizey : Int) - 1)) ∈ (DrawMeshGrid csizex csizey s).log := by
  simp only [DrawMeshGrid, LOOP_S_L_N]
  generalize hs2 : (MeshViewer.emit _ (Ev.Draw_Rectangle _ _ _ _)) = s2
  have hv := loopN_emit
    (fun x t => Ev.Draw_VLine (px t.sizex x) (py t.sizey ((t.sizey : Int) - 1)) width)
    (fun _ _ => rfl) (s2.sizex - 1 - 1) 1 s2
  generalize hs3 : loopN _ (s2.sizex - 1 - 1) 1 s2 = s3 at hv ⊢
  have hh := loopN_emit
    (fun y t => Ev.Draw_HLine (px t.sizex 0) (py t.sizey y) width)
    (fun _ _ => rfl) (s3.sizey - 1 - 1) 1 s3
  generalize hs4 : loopN _ (s3.sizey - 1 - 1) 1 s3 = s4 at hh ⊢
  obtain ⟨v1, v2, v3, v4, v5, v6, v7⟩ := hv
  obtain ⟨g1, g2, g3, g4, g5, g6, g7⟩ := hh
  subst hs2
  simp only [MeshViewer.emit] at v1 v2 v3 v4 v5 v6 v7
  refine ⟨by rw [g1, v1], by rw [g2, v2], by rw [g3, v3], by rw [g4, v4], by rw [g5, v5], ?_, ?_⟩
  · rw [g6, v6]
    simp [List.filter_append, Ev.isCall]
  · apply g7
    apply v7
    simp

/-- The variables and the log after one `DrawMeshPoint`. -/
theorem DrawMeshPoint_state (x y : Nat) (z : Height) (s : MeshViewer) :
    (DrawMeshPoint x y z s).sizex = s.sizex ∧
    (DrawMeshPoint x y z s).sizey = s.sizey ∧
    (DrawMeshPoint x y z s).rmax = s.rmax ∧
    (DrawMeshPoint x y z s).max = NOLESS s.max z ∧
    (DrawMeshPoint x y z s).min = NOMORE s.min z ∧
    (DrawMeshPoint x y z s).log = s.log ++ [Ev.DrawMeshPoint x y z,
      Ev.Draw_FillCircle (heightIndex z) (px s.sizex x) (py s.sizey y)
        (r s.rmax (heightIndex z))] := by
  simp [DrawMeshPoint, MeshViewer.emit]

/-- The calls logged by the loop over the cells of row `y`. -/
theorem rowLoop_calls (zval : Nat → Nat → Height) (y : Nat) :
    ∀ (k i : Nat) (s : MeshViewer),
      (loopN (fun x u => DrawMeshPoint x y (zval x y) u) k i s).log.filter Ev.isCall =
        s.log.filter Ev.isCall ++
          (List.range' i k).map (fun x => Ev.DrawMeshPoint x y (zval x y)) := by
  intro k
  induction k with
  | zero => intro i s; simp [loopN]
  | succ k ih =>
    intro i s
    simp only [loopN]
    rw [ih (i + 1) (DrawMeshPoint i y (zval i y) s), (DrawMeshPoint_state i y (zval i y) s).2.2.2.2.2]
    simp [List.filter_append, List.filter_cons, Ev.isCall, List.range'_succ]

/-- The calls logged by the loop over the rows. -/
theorem meshLoop_calls (zval : Nat → Nat → Height) (csizex : Nat) :
    ∀ (k i : Nat) (s : MeshViewer),
      (loopN (fun y t => LOOP_L_N csizex (fun x u => DrawMeshPoint x y (zval x y) u)
          (t.emit Ev.watchdog_refresh)) k i s).log.filter Ev.isCall =
        s.log.filter Ev.isCall ++
          (List.range' i k).flatMap (fun y => Ev.watchdog_refresh ::
            (List.range csizex).map (fun x => Ev.DrawMeshPoint x y (zval x y))) := by
  intro k
  induction k with
  | zero => intro i s; simp [loopN]
  | succ k ih =>
    intro i s
    simp only [loopN]
    rw [ih]
    simp only [LOOP_L_N, LOOP_S_L_N, Nat.sub_zero]
    rw [rowLoop_calls]
    simp [MeshViewer.emit, List.filter_append, Ev.isCall, List.range'_succ,
      List.range_eq_range']

/-- A row of the expected calls holds the cell `(x, y)` with height `z` once when it is a cell
of that row with that height, and not at all otherwise. -/
theorem row_count_point (zval : Nat → Nat → Height) (x y yrow : Nat) (z : Height) :
    ∀ n : Nat, ((List.range n).map (fun a => Ev.DrawMeshPoint a yrow (zval a yrow))).count
        (Ev.DrawMeshPoint x y z) = if yrow = y ∧ x < n ∧ zval x y = z then 1 else 0 := by
  intro n
  induction n with
  | zero => simp
  | succ n ih =>
    rw [List.range_succ, List.map_append, List.count_append, ih]
    simp only [List.map_cons, List.map_nil, List.count_cons, List.count_nil, beq_iff_eq,
      Ev.DrawMeshPoint.injEq, zero_add]
    by_cases hy : yrow = y
    · subst hy
      by_cases hx : n = x
      · subst hx
        by_cases hz : zval n yrow = z <;> simp [hz]
      · have hx2 : (x < n + 1) = (x < n) := by
          apply propext
          constructor <;> intro h <;> omega
        simp [hx, hx2]
    · simp [hy]

/-- Counting in the expected calls of the rows `0 .. n-1`. -/
theorem rows_count (zval : Nat → Nat → Height) (csizex x y : Nat) (z : Height) :
    ∀ n : Nat,
      let rows := (List.range n).flatMap (fun b => Ev.watchdog_refresh ::
        (List.range csizex).map (fun a => Ev.DrawMeshPoint a b (zval a b)))
      rows.count Ev.watchdog_refresh = n ∧
      (∀ m, rows.count (Ev.DrawMeshGrid csizex m) = 0) ∧
      (rows.filter Ev.isPoint).length = csizex * n ∧
      rows.count (Ev.DrawMeshPoint x y z) =
        if x < csizex ∧ y < n ∧ zval x y = z then 1 else 0 := by
  intro n
  induction n with
  | zero => simp
  | succ n ih =>
    obtain ⟨h1, h2, h3, h4⟩ := ih
    have hw : ∀ b : Nat, ((List.range csizex).map
        (fun a => Ev.DrawMeshPoint a b (zval a b))).count Ev.watchdog_refresh = 0 := by
      intro b
      rw [List.count_eq_zero]
      simp
    have hp : ∀ b : Nat, (((List.range csizex).map
        (fun a => Ev.DrawMeshPoint a b (zval a b))).filter Ev.isPoint).length = csizex := by
      intro b
      rw [List.filter_eq_self.mpr]
      · simp
      · intro e he
        simp only [List.mem_map] at he
        obtain ⟨a, _, rfl⟩ := he
        rfl
    refine ⟨?_, ?_, ?_, ?_⟩
    · simp only [List.range_succ, List.flatMap_append, List.count_append] 
      simp only [h1, List.flatMap_cons, List.flatMap_nil, List.append_nil, List.count_cons_self, hw]
    · intro m
      rw [List.count_eq_zero]
      simp
    · simp only [List.range_succ, List.flatMap_append, List.filter_append, List.length_append]
      simp only [h3, List.flatMap_cons, List.flatMap_nil, List.append_nil, List.filter_cons,
        Ev.isPoint]
      simp [Nat.mul_succ, hp]
    · simp only [List.range_succ, List.flatMap_append, List.count_append]
      simp only [h4, List.flatMap_cons, List.flatMap_nil, List.append_nil, List.count_cons,
        row_count_point]
      by_cases hy : n = y
      · subst hy
        simp
      · have hy2 : (y < n + 1) = (y < n) := by
          apply propext
          constructor <;> intro h <;> omega
        simp [hy, hy2]

/-! ## Arithmetic of the layout macros -/

/-- For a mesh width of at least 2 the stored `rmax` is `min(23, 111 / (sizex - 1))` with
integer division. -/
theorem rmaxOf_eq (sizex : Nat) (h : 2 ≤ sizex) :
    rmaxOf sizex = min 23 (111 / ((sizex : Int) - 1)) := by
  obtain ⟨k, rfl⟩ : ∃ k, sizex = k + 2 := ⟨sizex - 2, by omega⟩
  have hk : (((k + 2 : Nat) : Int) - 1) = ((k + 1 : Nat) : Int) := by push_cast; ring
  have hq : (1 / 2 : ℚ) * ((width : Int) : ℚ) / ((((k + 2 : Nat) : Int) - 1 : Int) : ℚ)
      = ((111 : Int) : ℚ) / ((k + 1 : Nat) : ℚ) := by
    rw [hk]
    simp only [width, DWIN_WIDTH, margin]
    push_cast
    ring
  have hfl : ⌊((111 : Int) : ℚ) / ((k + 1 : Nat) : ℚ)⌋ = 111 / ((k + 1 : Nat) : Int) :=
    Rat.floor_intCast_div_natCast 111 (k + 1)
  have hdiv0 : (0 : Int) ≤ 111 / ((k + 1 : Nat) : Int) :=
    Int.ediv_nonneg (by norm_num) (by positivity)
  have hpos : (0 : ℚ) ≤ ((111 : Int) : ℚ) / ((k + 1 : Nat) : ℚ) := by positivity
  have hm : (((margin - 2 : Int)) : ℚ) = 23 := by simp [margin]
  unfold rmaxOf
  rw [hq, hm, hk]
  have hnn : (0 : ℚ) ≤ min (23 : ℚ) (((111 : Int) : ℚ) / ((k + 1 : Nat) : ℚ)) :=
    le_min (by norm_num) hpos
  simp only [truncToInt, if_pos hnn]
  have hmin : ⌊min (23 : ℚ) (((111 : Int) : ℚ) / ((k + 1 : Nat) : ℚ))⌋ =
      min ⌊(23 : ℚ)⌋ ⌊((111 : Int) : ℚ) / ((k + 1 : Nat) : ℚ)⌋ :=
    (@Int.floor_mono ℚ _ _).map_min
  rw [hmin, hfl]
  have h23 : ⌊(23 : ℚ)⌋ = 23 := by
    have : ((23 : Int) : ℚ) = 23 := by norm_num
    rw [← this, Int.floor_intCast]
  rw [h23]
  unfold toUInt8
  apply Int.emod_eq_of_lt
  · exact le_min (by norm_num) hdiv0
  · exact lt_of_le_of_lt (min_le_left _ _) (by norm_num)

/-- The stored `rmax` is at least `rmin` exactly for the widths up to 23. -/
theorem rmaxOf_range (sizex : Nat) (h2 : 2 ≤ sizex) (h23 : sizex ≤ 23) :
    rmin ≤ rmaxOf sizex ∧ rmaxOf sizex ≤ margin - 2 ∧
      2 * rmaxOf sizex ≤ width / ((sizex : Int) - 1) := by
  rw [rmaxOf_eq sizex h2]
  simp only [rmin, margin, width, DWIN_WIDTH]
  interval_cases sizex <;> decide

/-- From a mesh width of 24 on, the stored `rmax` is below `rmin`. -/
theorem rmaxOf_lt_rmin (sizex : Nat) (h24 : 24 ≤ sizex) : rmaxOf sizex < rmin := by
  rw [rmaxOf_eq sizex (by omega)]
  have hk : (0 : Int) < (sizex : Int) - 1 := by omega
  have hdiv : 111 / ((sizex : Int) - 1) < 5 := by
    rw [Int.ediv_lt_iff_lt_mul hk]
    omega
  exact lt_of_le_of_lt (min_le_right _ _) (by simpa [rmin] using hdiv)

/-- `px` on a cell index, with the truncating division written as floor division. -/
theorem px_eq (sizex x : Nat) (h : 2 ≤ sizex) :
    px sizex x = 25 + ((x : Int) * 222) / ((sizex : Int) - 1) := by
  unfold px
  rw [Int.tdiv_eq_ediv (by simp only [width, DWIN_WIDTH, margin]; positivity) (by omega)]
  simp [width, DWIN_WIDTH, margin]

/-- `py` on a cell index, with the truncating division written as floor division. -/
theorem py_eq (sizey y : Nat) (h : 2 ≤ sizey) :
    py sizey y = 277 - ((y : Int) * 222) / ((sizey : Int) - 1) := by
  unfold py
  rw [Int.tdiv_eq_ediv (by simp only [width, DWIN_WIDTH, margin]; positivity) (by omega)]
  simp [width, DWIN_WIDTH, margin]

/-- The radius macro for an index of at least `zmin` and `rmax >= rmin`, with the truncating
division written as floor division. -/
theorem r_eq (rmax v : Int) (hr : 5 ≤ rmax) (hv : -20 ≤ v) :
    r rmax v = (v + 20) * (rmax - 5) / 40 + 5 := by
  unfold r
  simp only [zmin, zmax, rmin]
  rw [Int.tdiv_eq_ediv (mul_nonneg (by omega) (by omega)) (by norm_num)]
  norm_num

/-- Between `zmin` and `zmax` the radius macro stays between `rmin` and `rmax` and does not
decrease, provided `rmax >= rmin`. -/
theorem r_bounds (rmax v : Int) (hr : 5 ≤ rmax) (hv : -20 ≤ v) (hv2 : v ≤ 20) :
    5 ≤ r rmax v ∧ r rmax v ≤ rmax := by
  rw [r_eq rmax v hr hv]
  have h0 : 0 ≤ (v + 20) * (rmax - 5) / 40 :=
    Int.ediv_nonneg (mul_nonneg (by omega) (by omega)) (by norm_num)
  have h1 : (v + 20) * (rmax - 5) / 40 ≤ rmax - 5 := by
    apply Int.ediv_le_of_le_mul (by norm_num)
    nlinarith
  omega

theorem r_mono (rmax v w : Int) (hr : 5 ≤ rmax) (hv : -20 ≤ v) (hvw : v ≤ w) :
    r rmax v ≤ r rmax w := by
  rw [r_eq rmax v hr hv, r_eq rmax w hr (by omega)]
  have : (v + 20) * (rmax - 5) / 40 ≤ (w + 20) * (rmax - 5) / 40 := by
    apply Int.ediv_le_ediv (by norm_num)
    nlinarith
  omega

/-! ## The height index -/

theorem LIMIT_bounds (v : Int) : zmin ≤ LIMIT v zmin zmax ∧ LIMIT v zmin zmax ≤ zmax := by
  unfold LIMIT zmin zmax
  split_ifs <;> omega

theorem LIMIT_mono (v w : Int) (h : v ≤ w) : LIMIT v zmin zmax ≤ LIMIT w zmin zmax := by
  unfold LIMIT zmin zmax
  split_ifs <;> omega

/-- The index passed to the colour gradient and to the radius macro is within
`[zmin, zmax]` whatever the height. -/
theorem heightIndex_bounds (z : Height) : -20 ≤ heightIndex z ∧ heightIndex z ≤ 20 := by
  have h := LIMIT_bounds (toInt16 (match z with
    | .nan => 0
    | .val q => scaledHeight q))
  simpa [heightIndex, zmin, zmax] using h

/-- A NaN height gets the index 0. -/
theorem heightIndex_nan : heightIndex Height.nan = 0 := by
  simp [heightIndex, toInt16, LIMIT, zmin, zmax]

theorem roundAway_mono (a b : ℚ) (h : a ≤ b) : roundAway a ≤ roundAway b := by
  unfold roundAway
  by_cases ha : 0 ≤ a
  · have hb : 0 ≤ b := le_trans ha h
    rw [if_pos ha, if_pos hb]
    exact Int.floor_mono (by linarith)
  · rw [if_neg ha]
    by_cases hb : 0 ≤ b
    · rw [if_pos hb]
      have h1 : ⌈a - 1 / 2⌉ ≤ 0 := by
        rw [Int.ceil_le]
        push_neg at ha
        push_cast
        linarith
      have h2 : 0 ≤ ⌊b + 1 / 2⌋ := by
        rw [Int.le_floor]
        push_cast
        linarith
      omega
    · rw [if_neg hb]
      exact Int.ceil_mono (by linarith)

/-- Rounding an integer gives it back. -/
theorem roundAway_intCast (n : Int) : roundAway (n : ℚ) = n := by
  unfold roundAway
  split_ifs with h
  · rw [Int.floor_eq_iff]
    constructor <;> linarith
  · rw [Int.ceil_eq_iff]
    constructor <;> linarith

/-! ### The `float` product -/

theorem roundEven_intCast (n : Int) : roundEven (n : ℚ) = n := by
  simp [roundEven]

theorem roundEven_mono (a b : ℚ) (h : a ≤ b) : roundEven a ≤ roundEven b := by
  have hfl : ⌊a⌋ ≤ ⌊b⌋ := Int.floor_mono h
  have ha0 : (⌊a⌋ : ℚ) ≤ a := Int.floor_le a
  have hb0 : (⌊b⌋ : ℚ) ≤ b := Int.floor_le b
  rcases lt_or_eq_of_le hfl with hlt | heq
  · have h1 : roundEven a ≤ ⌊a⌋ + 1 := by
      unfold roundEven
      split_ifs <;> omega
    have h2 : ⌊b⌋ ≤ roundEven b := by
      unfold roundEven
      split_ifs <;> omega
    omega
  · unfold roundEven
    rw [← heq]
    split_ifs <;> first | omega | linarith

theorem roundEven_le (q : ℚ) (n : Int) (h : q ≤ n) : roundEven q ≤ n := by
  have := roundEven_mono q n h
  rwa [roundEven_intCast] at this

theorem le_roundEven (q : ℚ) (n : Int) (h : (n : ℚ) ≤ q) : n ≤ roundEven q := by
  have := roundEven_mono n q h
  rwa [roundEven_intCast] at this

theorem two_zpow_pos (e : Int) : (0 : ℚ) < (2 : ℚ) ^ e := zpow_pos (by norm_num) e

theorem two_zpow_natCast (k : Nat) : (2 : ℚ) ^ (k : Int) = (((2 : Int) ^ k : Int) : ℚ) := by
  rw [zpow_natCast]
  push_cast
  rfl

theorem f32pos_nonneg (q : ℚ) (h : 0 ≤ q) : 0 ≤ f32pos q := by
  unfold f32pos
  have h1 : (0 : ℚ) ≤ q / (2 : ℚ) ^ f32exp q := div_nonneg h (le_of_lt (two_zpow_pos _))
  have h2 : (0 : Int) ≤ roundEven (q / (2 : ℚ) ^ f32exp q) :=
    le_roundEven _ 0 (by simpa using h1)
  have h3 : (0 : ℚ) ≤ (roundEven (q / (2 : ℚ) ^ f32exp q) : ℚ) := by exact_mod_cast h2
  exact mul_nonneg h3 (le_of_lt (two_zpow_pos _))

theorem f32pos_zero : f32pos 0 = 0 := by
  simp [f32pos, roundEven]

/-- A value at most a power of two on or above its own grid rounds to at most that power. -/
theorem f32pos_le_zpow (q : ℚ) (n : Int) (hn : f32exp q ≤ n) (h : q ≤ (2 : ℚ) ^ n) :
    f32pos q ≤ (2 : ℚ) ^ n := by
  unfold f32pos
  obtain ⟨k, hk⟩ : ∃ k : Nat, n - f32exp q = k := ⟨(n - f32exp q).toNat, by omega⟩
  have hsplit : (2 : ℚ) ^ n = (2 : ℚ) ^ (k : Int) * (2 : ℚ) ^ f32exp q := by
    rw [← zpow_add₀ (by norm_num : (2 : ℚ) ≠ 0), ← hk]
    congr 1
    ring
  have hdiv : q / (2 : ℚ) ^ f32exp q ≤ (((2 : Int) ^ k : Int) : ℚ) := by
    rw [div_le_iff₀ (two_zpow_pos _), ← two_zpow_natCast, ← hsplit]
    exact h
  have hr : roundEven (q / (2 : ℚ) ^ f32exp q) ≤ (2 : Int) ^ k := roundEven_le _ _ hdiv
  have hr2 : (roundEven (q / (2 : ℚ) ^ f32exp q) : ℚ) ≤ (2 : ℚ) ^ (k : Int) := by
    rw [two_zpow_natCast]
    exact_mod_cast hr
  rw [hsplit]
  exact mul_le_mul_of_nonneg_right hr2 (le_of_lt (two_zpow_pos _))

/-- A value at least a power of two on or above its own grid rounds to at least that power. -/
theorem zpow_le_f32pos (q : ℚ) (n : Int) (hn : f32exp q ≤ n) (h : (2 : ℚ) ^ n ≤ q) :
    (2 : ℚ) ^ n ≤ f32pos q := by
  unfold f32pos
  obtain ⟨k, hk⟩ : ∃ k : Nat, n - f32exp q = k := ⟨(n - f32exp q).toNat, by omega⟩
  have hsplit : (2 : ℚ) ^ n = (2 : ℚ) ^ (k : Int) * (2 : ℚ) ^ f32exp q := by
    rw [← zpow_add₀ (by norm_num : (2 : ℚ) ≠ 0), ← hk]
    congr 1
    ring
  have hdiv : (((2 : Int) ^ k : Int) : ℚ) ≤ q / (2 : ℚ) ^ f32exp q := by
    rw [le_div_iff₀ (two_zpow_pos _), ← two_zpow_natCast, ← hsplit]
    exact h
  have hr : (2 : Int) ^ k ≤ roundEven (q / (2 : ℚ) ^ f32exp q) := le_roundEven _ _ hdiv
  have hr2 : (2 : ℚ) ^ (k : Int) ≤ (roundEven (q / (2 : ℚ) ^ f32exp q) : ℚ) := by
    rw [two_zpow_natCast]
    exact_mod_cast hr
  rw [hsplit]
  exact mul_le_mul_of_nonneg_right hr2 (le_of_lt (two_zpow_pos _))

theorem f32pos_mono (a b : ℚ) (ha : 0 ≤ a) (h : a ≤ b) : f32pos a ≤ f32pos b := by
  rcases eq_or_lt_of_le ha with h0 | hapos
  · rw [← h0, f32pos_zero]
    exact f32pos_nonneg b (le_trans ha h)
  have hbpos : 0 < b := lt_of_lt_of_le hapos h
  have hlog : Int.log 2 a ≤ Int.log 2 b := Int.log_mono_right hapos h
  have hexp : f32exp a ≤ f32exp b := by
    unfold f32exp
    omega
  rcases eq_or_lt_of_le hexp with heq | hlt
  · unfold f32pos
    rw [heq]
    have hdiv : a / (2 : ℚ) ^ f32exp b ≤ b / (2 : ℚ) ^ f32exp b :=
      div_le_div_of_nonneg_right h (le_of_lt (two_zpow_pos _))
    have hr := roundEven_mono _ _ hdiv
    have hr2 : (roundEven (a / (2 : ℚ) ^ f32exp b) : ℚ) ≤ roundEven (b / (2 : ℚ) ^ f32exp b) := by
      exact_mod_cast hr
    exact mul_le_mul_of_nonneg_right hr2 (le_of_lt (two_zpow_pos _))
  · -- different grids: the power of two `2 ^ log b` separates the two values
    have hlb : Int.log 2 a + 1 ≤ Int.log 2 b ∧ -126 < Int.log 2 b := by
      unfold f32exp at hlt
      omega
    have hP1 : a ≤ (2 : ℚ) ^ Int.log 2 b := by
      have h1 : a < ((2 : Nat) : ℚ) ^ (Int.log 2 a + 1) := Int.lt_zpow_succ_log_self (by norm_num) a
      have h2 : ((2 : Nat) : ℚ) ^ (Int.log 2 a + 1) ≤ ((2 : Nat) : ℚ) ^ Int.log 2 b :=
        zpow_le_zpow_right₀ (by norm_num) hlb.1
      have h3 := le_of_lt (lt_of_lt_of_le h1 h2)
      simpa using h3
    have hP2 : (2 : ℚ) ^ Int.log 2 b ≤ b := by
      have h1 : ((2 : Nat) : ℚ) ^ Int.log 2 b ≤ b := Int.zpow_log_le_self (by norm_num) hbpos
      simpa using h1
    have hea : f32exp a ≤ Int.log 2 b := by
      unfold f32exp
      omega
    have heb : f32exp b ≤ Int.log 2 b := by
      unfold f32exp
      omega
    exact le_trans (f32pos_le_zpow a _ hea hP1) (zpow_le_f32pos b _ heb hP2)

theorem f32round_mono (a b : ℚ) (h : a ≤ b) : f32round a ≤ f32round b := by
  unfold f32round
  by_cases ha : 0 ≤ a
  · rw [if_pos ha, if_pos (le_trans ha h)]
    exact f32pos_mono a b ha h
  · rw [if_neg ha]
    push_neg at ha
    by_cases hb : 0 ≤ b
    · rw [if_pos hb]
      have h1 := f32pos_nonneg (-a) (by linarith)
      have h2 := f32pos_nonneg b hb
      linarith
    · rw [if_neg hb]
      push_neg at hb
      have := f32pos_mono (-b) (-a) (by linarith) (by linarith)
      linarith

/-- Integers below `2 ^ 24` in absolute value are binary32 values. -/
theorem f32pos_intCast (n : Int) (h0 : 0 ≤ n) (h : n < 2 ^ 24) : f32pos (n : ℚ) = n := by
  rcases eq_or_lt_of_le h0 with hz | hpos
  · rw [← hz]
    simpa using f32pos_zero
  have hq : (0 : ℚ) < (n : ℚ) := by exact_mod_cast hpos
  have hl0 : 0 ≤ Int.log 2 (n : ℚ) := by
    rw [← Int.zpow_le_iff_le_log (by norm_num) hq]
    simp only [zpow_zero]
    exact_mod_cast hpos
  have hl1 : Int.log 2 (n : ℚ) < 24 := by
    rw [← Int.lt_zpow_iff_log_lt (by norm_num) hq]
    have h24 : ((2 : Nat) : ℚ) ^ (24 : Int) = ((2 ^ 24 : Int) : ℚ) := by norm_num
    rw [h24]
    exact_mod_cast h
  have he : f32exp (n : ℚ) ≤ 0 := by
    unfold f32exp
    omega
  obtain ⟨k, hk⟩ : ∃ k : Nat, -f32exp (n : ℚ) = k := ⟨(-f32exp (n : ℚ)).toNat, by omega⟩
  have hdiv : (n : ℚ) / (2 : ℚ) ^ f32exp (n : ℚ) = ((n * (2 : Int) ^ k : Int) : ℚ) := by
    have e1 : f32exp (n : ℚ) = -(k : Int) := by omega
    rw [e1, zpow_neg, div_inv_eq_mul, two_zpow_natCast]
    push_cast
    ring
  unfold f32pos
  rw [hdiv, roundEven_intCast]
  have e1 : f32exp (n : ℚ) = -(k : Int) := by omega
  rw [e1, zpow_neg, two_zpow_natCast]
  push_cast
  field_simp

theorem f32round_intCast (n : Int) (hlo : -(2 ^ 24) < n) (hhi : n < 2 ^ 24) :
    f32round (n : ℚ) = n := by
  unfold f32round
  by_cases h0 : 0 ≤ n
  · have : (0 : ℚ) ≤ (n : ℚ) := by exact_mod_cast h0
    rw [if_pos this]
    exact f32pos_intCast n h0 hhi
  · have : ¬ (0 : ℚ) ≤ (n : ℚ) := by
      intro hc
      exact h0 (by exact_mod_cast hc)
    rw [if_neg this]
    have h := f32pos_intCast (-n) (by omega) (by omega)
    push_cast at h
    rw [h]
    ring

/-- The scaled height does not decrease with the height. -/
theorem scaledHeight_mono (a b : ℚ) (h : a ≤ b) : scaledHeight a ≤ scaledHeight b :=
  roundAway_mono _ _ (f32round_mono _ _ (by linarith))

/-- The scaled height of a whole number `n` of millimetres is `100 * n`, as long as the product
is below `2 ^ 24` in absolute value. -/
theorem scaledHeight_intCast (n : Int) (hlo : -(2 ^ 24) < n * 100) (hhi : n * 100 < 2 ^ 24) :
    scaledHeight (n : ℚ) = n * 100 := by
  have h : (n : ℚ) * 100 = ((n * 100 : Int) : ℚ) := by push_cast; ring
  unfold scaledHeight
  rw [h, f32round_intCast _ hlo hhi, roundAway_intCast]

/-- Heights of at most 327 mm in absolute value have a scaled height that fits an `int16_t`. -/
theorem scaledHeight_range (q : ℚ) (h : |q| ≤ 327) :
    -32768 ≤ scaledHeight q ∧ scaledHeight q ≤ 32767 := by
  obtain ⟨h1, h2⟩ := abs_le.mp h
  have hlo := scaledHeight_mono (((-327 : Int) : ℚ)) q (by push_cast; linarith)
  have hhi := scaledHeight_mono q (((327 : Int) : ℚ)) (by push_cast; linarith)
  rw [scaledHeight_intCast (-327) (by norm_num) (by norm_num)] at hlo
  rw [scaledHeight_intCast 327 (by norm_num) (by norm_num)] at hhi
  constructor <;> omega

/-- The index of a height that is a whole number `n` of millimetres. -/
theorem heightIndex_intCast (n : Int) (hlo : -(2 ^ 24) < n * 100) (hhi : n * 100 < 2 ^ 24) :
    heightIndex (Height.val (n : ℚ)) = LIMIT (toInt16 (n * 100)) zmin zmax := by
  simp only [heightIndex]
  rw [scaledHeight_intCast n hlo hhi]

/-- The spacing exponent of a positive value between two consecutive powers of two. -/
theorem f32exp_eq (q : ℚ) (l : Int) (hl : -126 ≤ l) (h1 : (2 : ℚ) ^ l ≤ q)
    (h2 : q < (2 : ℚ) ^ (l + 1)) : f32exp q = l - 23 := by
  have hq : 0 < q := lt_of_lt_of_le (two_zpow_pos l) h1
  have ha : l ≤ Int.log 2 q := by
    rw [← Int.zpow_le_iff_le_log (by norm_num) hq]
    simpa using h1
  have hb : Int.log 2 q < l + 1 := by
    rw [← Int.lt_zpow_iff_log_lt (by norm_num) hq]
    simpa using h2
  unfold f32exp
  omega

/-- The scaled height at two heights where the `float` product is not the exact product:
at -327.68499755859375 the product rounds to -32768.5 and on to -32769, and at `0.195f` it
rounds to 19.5 and on to 20. -/
theorem scaledHeight_boundary :
    scaledHeight (-(10737582 / 32768)) = -32769 ∧ scaledHeight (13086228 / 67108864) = 20 := by
  constructor
  · have he : f32exp (10737582 / 32768 * 100) = 15 - 23 :=
      f32exp_eq _ 15 (by norm_num) (by norm_num) (by norm_num)
    have hf : f32round (-(10737582 / 32768) * 100) = -(65537 / 2) := by
      have hneg : ¬ (0 : ℚ) ≤ -(10737582 / 32768) * 100 := by norm_num
      have harg : -(-(10737582 / 32768 : ℚ) * 100) = 10737582 / 32768 * 100 := by ring
      unfold f32round
      rw [if_neg hneg, harg]
      unfold f32pos
      rw [he]
      norm_num [roundEven]
    unfold scaledHeight
    rw [hf]
    unfold roundAway
    rw [if_neg (by norm_num)]
    rw [Int.ceil_eq_iff]
    norm_num
  · have he : f32exp (13086228 / 67108864 * 100) = 4 - 23 :=
      f32exp_eq _ 4 (by norm_num) (by norm_num) (by norm_num)
    have hf : f32round (13086228 / 67108864 * 100) = 39 / 2 := by
      have hpos : (0 : ℚ) ≤ 13086228 / 67108864 * 100 := by norm_num
      unfold f32round
      rw [if_pos hpos]
      unfold f32pos
      rw [he]
      norm_num [roundEven]
    unfold scaledHeight
    rw [hf]
    norm_num [roundAway]

/-- At -327.68499755859375 the scaled height -32769 wraps in the `int16_t` and the index is
`zmax`. -/
theorem heightIndex_boundary : heightIndex (Height.val (-(10737582 / 32768))) = 20 := by
  simp only [heightIndex]
  rw [scaledHeight_boundary.1]
  decide

/-- The index of some whole heights: 1.00 and -1.00 are clamped, 0 is kept, and 400.00 wraps
in the `int16_t` before the clamp. -/
theorem heightIndex_samples :
    heightIndex (Height.val 1) = 20 ∧ heightIndex (Height.val (-1)) = -20 ∧
    heightIndex (Height.val 0) = 0 ∧ heightIndex (Height.val 400) = -20 := by
  have h1 := heightIndex_intCast 1 (by norm_num) (by norm_num)
  have h2 := heightIndex_intCast (-1) (by norm_num) (by norm_num)
  have h3 := heightIndex_intCast 0 (by norm_num) (by norm_num)
  have h4 := heightIndex_intCast 400 (by norm_num) (by norm_num)
  simp only [Int.cast_one, Int.cast_neg, Int.cast_zero, Int.cast_ofNat] at h1 h2 h3 h4
  rw [h1, h2, h3, h4]
  decide

theorem toInt16_of_range (n : Int) (hlo : -32768 ≤ n) (hhi : n ≤ 32767) : toInt16 n = n := by
  unfold toInt16
  omega

/-- Where the scaled height fits an `int16_t`, the index is the scaled height clamped. -/
theorem heightIndex_of_range (q : ℚ) (hlo : -32768 ≤ scaledHeight q)
    (hhi : scaledHeight q ≤ 32767) :
    heightIndex (Height.val q) = LIMIT (scaledHeight q) zmin zmax := by
  simp only [heightIndex]
  rw [toInt16_of_range _ hlo hhi]

/-- Where the scaled heights fit an `int16_t`, the index does not decrease with the height. -/
theorem heightIndex_mono (a b : ℚ) (h : a ≤ b)
    (halo : -32768 ≤ scaledHeight a) (hahi : scaledHeight a ≤ 32767)
    (hblo : -32768 ≤ scaledHeight b) (hbhi : scaledHeight b ≤ 32767) :
    heightIndex (Height.val a) ≤ heightIndex (Height.val b) := by
  rw [heightIndex_of_range a halo hahi, heightIndex_of_range b hblo hbhi]
  exact LIMIT_mono _ _ (scaledHeight_mono _ _ h)

/-! ## The running minimum and maximum -/

theorem NOMORE_val (m q : ℚ) : NOMORE (Height.val m) (Height.val q) = Height.val (min q m) := by
  unfold NOMORE Height.lt
  by_cases h : q < m
  · simp [h, min_eq_left (le_of_lt h)]
  · simp [h, min_eq_right (not_lt.mp h)]

theorem NOLESS_val (m q : ℚ) : NOLESS (Height.val m) (Height.val q) = Height.val (max q m) := by
  unfold NOLESS Height.lt
  by_cases h : m < q
  · simp [h, max_eq_left (le_of_lt h)]
  · simp [h, max_eq_right (not_lt.mp h)]

/-- A NaN sample changes neither extreme. -/
theorem NOMORE_NOLESS_nan (v : Height) : NOMORE v Height.nan = v ∧ NOLESS v Height.nan = v := by
  cases v <;> simp [NOMORE, NOLESS, Height.lt]

theorem samples_step_val (zval : Nat → Nat → Height) (P : Nat → Nat → Prop) (x y : Nat)
    (q0 c : ℚ) (h : zval x y = Height.val q0) :
    insert c {q | ∃ a b, (P a b ∨ (a = x ∧ b = y)) ∧ zval a b = Height.val q} =
      insert q0 (insert c {q | ∃ a b, P a b ∧ zval a b = Height.val q}) := by
  ext q
  simp only [Set.mem_insert_iff, Set.mem_setOf_eq]
  constructor
  · rintro (h1 | ⟨a, b, (hp | ⟨rfl, rfl⟩), hq⟩)
    · exact Or.inr (Or.inl h1)
    · exact Or.inr (Or.inr ⟨a, b, hp, hq⟩)
    · rw [h] at hq
      injection hq with hq
      exact Or.inl hq.symm
  · rintro (h1 | h1 | ⟨a, b, hp, hq⟩)
    · exact Or.inr ⟨x, y, Or.inr ⟨rfl, rfl⟩, by rw [h, h1]⟩
    · exact Or.inl h1
    · exact Or.inr ⟨a, b, Or.inl hp, hq⟩

theorem samples_step_nan (zval : Nat → Nat → Height) (P : Nat → Nat → Prop) (x y : Nat)
    (c : ℚ) (h : zval x y = Height.nan) :
    insert c {q | ∃ a b, (P a b ∨ (a = x ∧ b = y)) ∧ zval a b = Height.val q} =
      insert c {q | ∃ a b, P a b ∧ zval a b = Height.val q} := by
  ext q
  simp only [Set.mem_insert_iff, Set.mem_setOf_eq]
  constructor
  · rintro (h1 | ⟨a, b, (hp | ⟨rfl, rfl⟩), hq⟩)
    · exact Or.inl h1
    · exact Or.inr ⟨a, b, hp, hq⟩
    · rw [h] at hq
      cases hq
  · rintro (h1 | ⟨a, b, hp, hq⟩)
    · exact Or.inl h1
    · exact Or.inr ⟨a, b, Or.inl hp, hq⟩

theorem Tracks_congr (zval : Nat → Nat → Height) (P Q : Nat → Nat → Prop) (s : MeshViewer)
    (h : ∀ a b, P a b ↔ Q a b) (hs : Tracks zval P s) : Tracks zval Q s := by
  have e : P = Q := funext fun a => funext fun b => propext (h a b)
  rw [← e]
  exact hs

/-- Whether the extremes are tracked depends on the `min` and `max` variables alone. -/
theorem Tracks_of_eq (zval : Nat → Nat → Height) (P : Nat → Nat → Prop) (s t : MeshViewer)
    (hmin : t.min = s.min) (hmax : t.max = s.max) (hs : Tracks zval P s) : Tracks zval P t := by
  unfold Tracks at hs ⊢
  rw [hmin, hmax]
  exact hs

/-- `DrawMeshGrid` resets the extremes: no cell seen yet. -/
theorem Tracks_grid (zval : Nat → Nat → Height) (csizex csizey : Nat) (s : MeshViewer) :
    Tracks zval (fun _ _ => False) (DrawMeshGrid csizex csizey s) := by
  obtain ⟨-, -, -, hmin, hmax, -⟩ := DrawMeshGrid_state csizex csizey s
  refine ⟨⟨100, hmin, ?_⟩, ⟨-100, hmax, ?_⟩⟩
  · simp [IsLeast, lowerBounds]
  · simp [IsGreatest, upperBounds]

/-- `DrawMeshPoint` on a cell adds that cell to the cells seen. -/
theorem Tracks_point (zval : Nat → Nat → Height) (P : Nat → Nat → Prop) (x y : Nat)
    (s : MeshViewer) (hs : Tracks zval P s) :
    Tracks zval (fun a b => P a b ∨ (a = x ∧ b = y)) (DrawMeshPoint x y (zval x y) s) := by
  obtain ⟨-, -, -, hmax, hmin, -⟩ := DrawMeshPoint_state x y (zval x y) s
  obtain ⟨⟨m, hm, hleast⟩, ⟨M, hM, hgreat⟩⟩ := hs
  unfold Tracks
  rw [hmin, hmax, hm, hM]
  cases hz : zval x y with
  | nan =>
    rw [samples_step_nan zval P x y 100 hz, samples_step_nan zval P x y (-100) hz]
    rw [(NOMORE_NOLESS_nan _).1, (NOMORE_NOLESS_nan _).2]
    exact ⟨⟨m, rfl, hleast⟩, ⟨M, rfl, hgreat⟩⟩
  | val q0 =>
    rw [samples_step_val zval P x y q0 100 hz, samples_step_val zval P x y q0 (-100) hz]
    rw [NOMORE_val, NOLESS_val]
    exact ⟨⟨min q0 m, rfl, hleast.insert q0⟩, ⟨max q0 M, rfl, hgreat.insert q0⟩⟩

/-- After the loop over row `y`, the cells of the rows up to `y` have been seen. -/
theorem Tracks_row (zval : Nat → Nat → Height) (csizex y : Nat) (s : MeshViewer)
    (hs : Tracks zval (fun a b => a < csizex ∧ b < y) s) :
    Tracks zval (fun a b => a < csizex ∧ b < y + 1)
      (LOOP_L_N csizex (fun x u => DrawMeshPoint x y (zval x y) u) s) := by
  have h := loopN_inv
    (fun i u => Tracks zval (fun a b => (a < csizex ∧ b < y) ∨ (a < i ∧ b = y)) u)
    (fun x u => DrawMeshPoint x y (zval x y) u) csizex 0 s
    (Tracks_congr zval _ _ s (fun a b => by simp) hs)
    (fun j t _ hj ht => Tracks_congr zval _ _ _
      (fun a b => by
        constructor
        · rintro ((h1 | ⟨h1, h2⟩) | ⟨rfl, rfl⟩)
          · exact Or.inl h1
          · exact Or.inr ⟨by omega, h2⟩
          · exact Or.inr ⟨by omega, rfl⟩
        · rintro (h1 | ⟨h1, h2⟩)
          · exact Or.inl (Or.inl h1)
          · by_cases e : a = j
            · exact Or.inr ⟨e, h2⟩
            · exact Or.inl (Or.inr ⟨by omega, h2⟩))
      (Tracks_point zval _ j y t ht))
  simp only [Nat.zero_add] at h
  simp only [LOOP_L_N, LOOP_S_L_N, Nat.sub_zero]
  refine Tracks_congr zval _ _ _ (fun a b => ?_) h
  constructor
  · rintro (⟨h1, h2⟩ | ⟨h1, h2⟩)
    · exact ⟨h1, by omega⟩
    · exact ⟨h1, by omega⟩
  · rintro ⟨h1, h2⟩
    by_cases e : b = y
    · exact Or.inr ⟨h1, e⟩
    · exact Or.inl ⟨h1, by omega⟩

/-- After `DrawMesh` every cell of the mesh has been seen, whatever the state before. -/
theorem Tracks_DrawMesh (zval : Nat → Nat → Height) (csizex csizey : Nat) (s : MeshViewer) :
    Tracks zval (fun a b => a < csizex ∧ b < csizey) (DrawMesh zval csizex csizey s) := by
  have h := loopN_inv
    (fun j u => Tracks zval (fun a b => a < csizex ∧ b < j) u)
    (fun y t => LOOP_L_N csizex (fun x u => DrawMeshPoint x y (zval x y) u)
      (t.emit Ev.watchdog_refresh)) csizey 0 (DrawMeshGrid csizex csizey s)
    (Tracks_congr zval _ _ _ (fun a b => by simp) (Tracks_grid zval csizex csizey s))
    (fun j t _ _ ht => Tracks_row zval csizex j _
      (Tracks_of_eq zval _ t (t.emit Ev.watchdog_refresh) rfl rfl ht))
  simp only [Nat.zero_add] at h
  simpa [DrawMesh, LOOP_L_N, LOOP_S_L_N] using h

/-- Tracked extremes are determined by the mesh. -/
theorem Tracks_unique (zval : Nat → Nat → Height) (P : Nat → Nat → Prop) (s t : MeshViewer)
    (hs : Tracks zval P s) (ht : Tracks zval P t) : t.min = s.min ∧ t.max = s.max := by
  obtain ⟨⟨m, hm, hleast⟩, ⟨M, hM, hgreat⟩⟩ := hs
  obtain ⟨⟨m2, hm2, hleast2⟩, ⟨M2, hM2, hgreat2⟩⟩ := ht
  rw [hm, hM, hm2, hM2, hleast2.unique hleast, hgreat2.unique hgreat]
  exact ⟨rfl, rfl⟩

/-! ## The run with the divisions checked -/

theorem px_checked_eq (sizex : Nat) (xp : Int) (h : sizex ≠ 1) :
    px_checked sizex xp = some (px sizex xp) := by
  have hne : (sizex : Int) - 1 ≠ 0 := by omega
  simp [px_checked, cdiv, px, hne]

theorem py_checked_eq (sizey : Nat) (yp : Int) (h : sizey ≠ 1) :
    py_checked sizey yp = some (py sizey yp) := by
  have hne : (sizey : Int) - 1 ≠ 0 := by omega
  simp [py_checked, cdiv, py, hne]

/-- With a size of 1 the macros divide by zero. -/
theorem px_py_checked_one (p : Int) : px_checked 1 p = none ∧ py_checked 1 p = none := by
  simp [px_checked, py_checked, cdiv]

/-- A loop whose body never fails on the states satisfying `P` runs as the plain loop. -/
theorem loopM_eq_loopN {σ : Type} (P : σ → Prop) (bodyM : Nat → σ → Option σ)
    (body : Nat → σ → σ) (h : ∀ i t, P t → bodyM i t = some (body i t) ∧ P (body i t)) :
    ∀ (k i : Nat) (s : σ), P s →
      loopM bodyM k i s = some (loopN body k i s) ∧ P (loopN body k i s) := by
  intro k
  induction k with
  | zero => intro i s hs; exact ⟨rfl, hs⟩
  | succ k ih =>
    intro i s hs
    obtain ⟨h1, h2⟩ := h i s hs
    simp only [loopM, loopN, h1, Option.some_bind]
    exact ih (i + 1) (body i s) h2

/-- With no size equal to 1, `DrawMeshGrid` runs without a division by zero. -/
theorem DrawMeshGrid_checked_eq (csizex csizey : Nat) (s : MeshViewer)
    (hx : csizex ≠ 1) (hy : csizey ≠ 1) :
    DrawMeshGrid_checked csizex csizey s = some (DrawMeshGrid csizex csizey s) := by
  have hV := loopM_eq_loopN (fun t : MeshViewer => t.sizex = csizex ∧ t.sizey = csizey)
    (fun x t => do
      let a ← px_checked t.sizex x
      let b ← py_checked t.sizey ((t.sizey : Int) - 1)
      pure (t.emit (.Draw_VLine a b width)))
    (fun x t => t.emit (.Draw_VLine (px t.sizex x) (py t.sizey ((t.sizey : Int) - 1)) width))
    (fun i t ht => by
      obtain ⟨h1, h2⟩ := ht
      refine ⟨?_, ?_⟩
      · simp [h1, h2, px_checked_eq _ _ hx, py_checked_eq _ _ hy]
      · simpa [MeshViewer.emit] using And.intro h1 h2)
  have hH := loopM_eq_loopN (fun t : MeshViewer => t.sizex = csizex ∧ t.sizey = csizey)
    (fun y t => do
      let a ← px_checked t.sizex 0
      let b ← py_checked t.sizey y
      pure (t.emit (.Draw_HLine a b width)))
    (fun y t => t.emit (.Draw_HLine (px t.sizex 0) (py t.sizey y) width))
    (fun i t ht => by
      obtain ⟨h1, h2⟩ := ht
      refine ⟨?_, ?_⟩
      · simp [h1, h2, px_checked_eq _ _ hx, py_checked_eq _ _ hy]
      · simpa [MeshViewer.emit] using And.intro h1 h2)
  unfold DrawMeshGrid_checked DrawMeshGrid LOOP_S_L_N
  dsimp only [MeshViewer.emit, Option.bind_eq_bind]
  rw [px_checked_eq _ _ hx, py_checked_eq _ _ hy, px_checked_eq _ _ hx, py_checked_eq _ _ hy]
  simp only [Option.some_bind]
  dsimp only [MeshViewer.emit, Option.bind_eq_bind] at hV hH
  rw [(hV _ 1 _ ⟨rfl, rfl⟩).1, Option.some_bind]
  rw [(hH _ 1 _ ?_).1]
  exact (hV _ 1 _ ⟨rfl, rfl⟩).2

/-- With a size of 1, `DrawMeshGrid` divides by zero. -/
theorem DrawMeshGrid_checked_one (n : Nat) (s : MeshViewer) :
    DrawMeshGrid_checked 1 n s = none ∧ DrawMeshGrid_checked n 1 s = none := by
  constructor
  · unfold DrawMeshGrid_checked
    dsimp only [MeshViewer.emit, Option.bind_eq_bind]
    rw [(px_py_checked_one _).1]
    rfl
  · unfold DrawMeshGrid_checked
    dsimp only [MeshViewer.emit, Option.bind_eq_bind]
    rw [(px_py_checked_one _).2]
    cases px_checked n 0 <;> rfl

/-- With no size equal to 1, `DrawMeshPoint` runs without a division by zero. -/
theorem DrawMeshPoint_checked_eq (x y : Nat) (z : Height) (s : MeshViewer)
    (hx : s.sizex ≠ 1) (hy : s.sizey ≠ 1) :
    DrawMeshPoint_checked x y z s = some (DrawMeshPoint x y z s) := by
  simp [DrawMeshPoint_checked, DrawMeshPoint, MeshViewer.emit, px_checked_eq _ _ hx,
    py_checked_eq _ _ hy]

/-- Whenever `DrawMeshPoint` has a result, the extremes in it are the updated ones. -/
theorem DrawMeshPoint_checked_min_max (x y : Nat) (z : Height) (s w : MeshViewer)
    (h : DrawMeshPoint_checked x y z s = some w) :
    w.min = NOMORE s.min z ∧ w.max = NOLESS s.max z := by
  unfold DrawMeshPoint_checked at h
  dsimp only [MeshViewer.emit, Option.bind_eq_bind] at h
  cases hpx : px_checked s.sizex x with
  | none => rw [hpx] at h; cases h
  | some a =>
    cases hpy : py_checked s.sizey y with
    | none => rw [hpx, hpy] at h; cases h
    | some b =>
      rw [hpx, hpy] at h
      simp only [Option.some_bind] at h
      cases h
      exact ⟨rfl, rfl⟩

/-- With no size equal to 1, `DrawMesh` runs without a division by zero. -/
theorem DrawMesh_checked_eq (zval : Nat → Nat → Height) (csizex csizey : Nat) (s : MeshViewer)
    (hx : csizex ≠ 1) (hy : csizey ≠ 1) :
    DrawMesh_checked zval csizex csizey s = some (DrawMesh zval csizex csizey s) := by
  have hrow : ∀ y : Nat, ∀ (k i : Nat) (u : MeshViewer),
      (u.sizex = csizex ∧ u.sizey = csizey) →
      loopM (fun x u => DrawMeshPoint_checked x y (zval x y) u) k i u =
        some (loopN (fun x u => DrawMeshPoint x y (zval x y) u) k i u) ∧
      ((loopN (fun x u => DrawMeshPoint x y (zval x y) u) k i u).sizex = csizex ∧
        (loopN (fun x u => DrawMeshPoint x y (zval x y) u) k i u).sizey = csizey) := by
    intro y
    exact loopM_eq_loopN (fun t : MeshViewer => t.sizex = csizex ∧ t.sizey = csizey) _ _
      (fun i t ht => by
        obtain ⟨h1, h2⟩ := ht
        obtain ⟨e1, e2, -⟩ := DrawMeshPoint_state i y (zval i y) t
        exact ⟨DrawMeshPoint_checked_eq i y (zval i y) t (by rw [h1]; exact hx)
          (by rw [h2]; exact hy), by rw [e1, h1], by rw [e2, h2]⟩)
  have hmesh := loopM_eq_loopN (fun t : MeshViewer => t.sizex = csizex ∧ t.sizey = csizey)
    (fun y t => loopM (fun x u => DrawMeshPoint_checked x y (zval x y) u) csizex 0
      (t.emit .watchdog_refresh))
    (fun y t => LOOP_L_N csizex (fun x u => DrawMeshPoint x y (zval x y) u)
      (t.emit .watchdog_refresh))
    (fun y t ht => by
      have := hrow y csizex 0 (t.emit .watchdog_refresh) ht
      simpa [LOOP_L_N, LOOP_S_L_N] using this)
  obtain ⟨g1, g2, -⟩ := DrawMeshGrid_state csizex csizey s
  simp only [DrawMesh_checked, DrawMesh, DrawMeshGrid_checked_eq csizex csizey s hx hy,
    Option.bind_eq_bind, Option.some_bind, LOOP_L_N, LOOP_S_L_N, Nat.sub_zero]
  have := (hmesh csizey 0 (DrawMeshGrid csizex csizey s) ⟨g1, g2⟩).1
  simpa [LOOP_L_N, LOOP_S_L_N] using this

/-- With a size of 1, `DrawMesh` divides by zero and has no result. -/
theorem DrawMesh_checked_one (zval : Nat → Nat → Height) (n : Nat) (s : MeshViewer) :
    DrawMesh_checked zval 1 n s = none ∧ DrawMesh_checked zval n 1 s = none := by
  simp [DrawMesh_checked, DrawMeshGrid_checked_one]

/-! ## The dispatcher -/

/-- C1: with every feature gate enabled, a code outside the known set (any integer, so any
`int16_t`) makes `customGcode` invoke the unknown-command path `cError` once and no handler;
`cError` is one call of `parser.unknown_command_warning`. -/
theorem customGcode_unknown (codenum : Int) (h : codenum ∉ knownCodes) :
    customGcode Features.all codenum = [Handler.cError] ∧
      (customGcode Features.all codenum).count Handler.cError = 1 ∧
      (∀ hd ∈ customGcode Features.all codenum, hd.code = none) ∧
      cError = [ParserCall.unknown_command_warning] := by
  have hc : customGcode Features.all codenum = [Handler.cError] := by
    simp only [knownCodes, List.mem_cons, List.mem_singleton, not_or, List.not_mem_nil,
      or_false] at h
    simp [customGcode, h]
  rw [hc]
  simp [Handler.code, cError]

theorem customGcode_unknown_witness :
    (12 : Int) ∉ knownCodes ∧ customGcode Features.all 12 = [Handler.cError] :=
  ⟨by decide, (customGcode_unknown 12 (by decide)).1⟩

/-- C2: with every feature gate enabled, a code of the known set makes `customGcode` invoke one
function, once: the handler named after that code (108 gives `C108`, 510 gives `C510`, 100
gives `proUIEx.C100`), and never `cError`. -/
theorem customGcode_known (codenum : Int) (h : codenum ∈ knownCodes) :
    (∃ hd : Handler, customGcode Features.all codenum = [hd] ∧ hd.code = some codenum ∧
      hd ≠ Handler.cError) ∧
    Handler.cError ∉ customGcode Features.all codenum ∧
    customGcode Features.all 108 = [Handler.C108] ∧
    customGcode Features.all 510 = [Handler.C510] ∧
    customGcode Features.all 100 = [Handler.C100] := by
  simp only [knownCodes, List.mem_cons, List.mem_singleton, List.not_mem_nil, or_false] at h
  refine ⟨?_, ?_, by decide, by decide, by decide⟩
  · rcases h with h | h | h | h | h | h | h | h | h | h | h | h | h | h | h | h | h | h <;>
      subst h <;> exact ⟨_, rfl, rfl, by decide⟩
  · rcases h with h | h | h | h | h | h | h | h | h | h | h | h | h | h | h | h | h | h <;>
      subst h <;> decide

theorem customGcode_known_witness :
    (851 : Int) ∈ knownCodes ∧ customGcode Features.all 851 = [Handler.C851] := by
  refine ⟨by decide, ?_⟩
  obtain ⟨hd, h1, h2, -⟩ := (customGcode_known 851 (by decide)).1
  rw [h1]
  cases hd <;> simp_all [Handler.code]

/-- C9: `C35` with parameter `T` seen: a byte whose `int8_t` reading is outside 0..4 (bytes
128..255 read negative) leads to no call at all, a byte `i` in 0..4 to `tram(i)` alone; with `T`
not seen and a bed probe configured, `trammingwizard` alone is called. -/
theorem C35_calls (f : Features) (p : TParam) :
    (p.seenval = true → ¬ (0 ≤ toInt8 p.value_byte.val ∧ toInt8 p.value_byte.val ≤ 4) →
      C35 f p = []) ∧
    (p.seenval = true → 128 ≤ p.value_byte.val →
      toInt8 p.value_byte.val < 0 ∧ C35 f p = []) ∧
    (p.seenval = true → p.value_byte.val ≤ 4 →
      C35 f p = [TramCall.tram p.value_byte.val]) ∧
    (p.seenval = false → f.HAS_BED_PROBE = true → C35 f p = [TramCall.trammingwizard]) := by
  obtain ⟨sv, b, hb⟩ := p
  refine ⟨?_, ?_, ?_, ?_⟩
  · intro h1 h2
    simp only at h1
    subst h1
    simp only [C35, WITHIN, if_true]
    rw [if_neg]
    simpa using h2
  · intro h1 h2
    simp only at h1 h2
    subst h1
    have hneg : toInt8 (b : Int) < 0 := by
      unfold toInt8
      omega
    refine ⟨hneg, ?_⟩
    simp only [C35, WITHIN, if_true]
    rw [if_neg]
    simp only [Bool.and_eq_true, decide_eq_true_eq, not_and, not_le]
    intro h0
    omega
  · intro h1 h2
    simp only at h1 h2
    subst h1
    have hid : toInt8 (b : Int) = (b : Int) := by
      unfold toInt8
      omega
    simp only [C35, WITHIN, if_true, hid]
    rw [if_pos]
    simp only [Bool.and_eq_true, decide_eq_true_eq]
    omega
  · intro h1 h2
    simp only at h1
    subst h1
    simp [C35, h2]

theorem C35_calls_witness :
    C35 Features.all ⟨true, 200⟩ = [] ∧
    C35 Features.all ⟨true, 3⟩ = [TramCall.tram 3] ∧
    C35 Features.all ⟨false, 0⟩ = [TramCall.trammingwizard] :=
  ⟨(C35_calls Features.all ⟨true, 200⟩).1 rfl (by decide),
   (C35_calls Features.all ⟨true, 3⟩).2.2.1 rfl (by decide),
   (C35_calls Features.all ⟨false, 0⟩).2.2.2 rfl rfl⟩

/-! ## The mesh viewer -/

/-- The calls logged by `DrawMesh` when no division by zero occurs, and how often each occurs
in the expected list. -/
theorem DrawMesh_log_calls (zval : Nat → Nat → Height) (csizex csizey : Nat) (s : MeshViewer) :
    (DrawMesh zval csizex csizey s).log.filter Ev.isCall =
      s.log.filter Ev.isCall ++ expectedCalls zval csizex csizey ∧
    (expectedCalls zval csizex csizey).count Ev.watchdog_refresh = csizey ∧
    (expectedCalls zval csizex csizey).count (Ev.DrawMeshGrid csizex csizey) = 1 ∧
    ((expectedCalls zval csizex csizey).filter Ev.isPoint).length = csizex * csizey ∧
    ∀ (x y : Nat) (z : Height),
      (expectedCalls zval csizex csizey).count (Ev.DrawMeshPoint x y z) =
        if x < csizex ∧ y < csizey ∧ zval x y = z then 1 else 0 := by
  refine ⟨?_, ?_, ?_, ?_, ?_⟩
  · simp only [DrawMesh, LOOP_L_N, LOOP_S_L_N, Nat.sub_zero]
    have h := meshLoop_calls zval csizex csizey 0 (DrawMeshGrid csizex csizey s)
    simp only [LOOP_L_N, LOOP_S_L_N, Nat.sub_zero] at h
    rw [h, (DrawMeshGrid_state csizex csizey s).2.2.2.2.2.1]
    simp [expectedCalls, List.range_eq_range']
  · have h := (rows_count zval csizex 0 0 Height.nan csizey).1
    simp only [expectedCalls, List.count_cons]
    simpa using h
  · have h := (rows_count zval csizex 0 0 Height.nan csizey).2.1 csizey
    simp only [expectedCalls, List.count_cons_self]
    omega
  · have h := (rows_count zval csizex 0 0 Height.nan csizey).2.2.1
    simp only [expectedCalls, List.filter_cons, Ev.isPoint]
    simpa using h
  · intro x y z
    have h := (rows_count zval csizex x y z csizey).2.2.2
    simp only [expectedCalls, List.count_cons]
    simpa using h

/-- C7 (amended): for sizes other than 1 the run of `DrawMesh` completes, and the calls it
makes, in order, are one `DrawMeshGrid`, then for each row `y` in increasing order one watchdog
refresh followed by `DrawMeshPoint(x, y, zval[x][y])` for each `x` in increasing order:
`csizey` refreshes, `csizex * csizey` point calls, each cell once. -/
theorem DrawMesh_checked_calls (zval : Nat → Nat → Height) (csizex csizey : Nat)
    (s : MeshViewer) (hx : csizex ≠ 1) (hy : csizey ≠ 1) :
    ∃ t : MeshViewer, DrawMesh_checked zval csizex csizey s = some t ∧
      t.log.filter Ev.isCall = s.log.filter Ev.isCall ++ expectedCalls zval csizex csizey ∧
      (expectedCalls zval csizex csizey).count Ev.watchdog_refresh = csizey ∧
      (expectedCalls zval csizex csizey).count (Ev.DrawMeshGrid csizex csizey) = 1 ∧
      ((expectedCalls zval csizex csizey).filter Ev.isPoint).length = csizex * csizey ∧
      ∀ (x y : Nat) (z : Height),
        (expectedCalls zval csizex csizey).count (Ev.DrawMeshPoint x y z) =
          if x < csizex ∧ y < csizey ∧ zval x y = z then 1 else 0 :=
  ⟨DrawMesh zval csizex csizey s, DrawMesh_checked_eq zval csizex csizey s hx hy,
    DrawMesh_log_calls zval csizex csizey s⟩

theorem DrawMesh_checked_calls_witness :
    ∃ t : MeshViewer, DrawMesh_checked (fun _ _ => Height.val 0) 2 3 MeshViewer.init = some t ∧
      t.log.filter Ev.isCall = expectedCalls (fun _ _ => Height.val 0) 2 3 := by
  obtain ⟨t, h1, h2, -⟩ := DrawMesh_checked_calls (fun _ _ => Height.val 0) 2 3 MeshViewer.init
    (by decide) (by decide)
  exact ⟨t, h1, by simpa [MeshViewer.init] using h2⟩

/-- C7 as stated fails for a size of 1: on a mesh of 1 by 3, and on a mesh of 3 by 1,
`DrawMeshGrid` divides by zero in `px` or `py` and the run of `DrawMesh` has no result, where
the claim promises three watchdog refreshes and three point calls. -/
theorem DrawMesh_checked_size_1 :
    DrawMesh_checked (fun _ _ => Height.val 0) 1 3 MeshViewer.init = none ∧
    DrawMesh_checked (fun _ _ => Height.val 0) 3 1 MeshViewer.init = none ∧
    px_checked 1 0 = none ∧ py_checked 1 0 = none ∧
    (expectedCalls (fun _ _ => Height.val 0) 1 3).count Ev.watchdog_refresh = 3 ∧
    ((expectedCalls (fun _ _ => Height.val 0) 1 3).filter Ev.isPoint).length = 3 := by
  refine ⟨(DrawMesh_checked_one _ 3 _).1, (DrawMesh_checked_one _ 3 _).2,
    (px_py_checked_one 0).1, (px_py_checked_one 0).2, ?_, ?_⟩
  · exact (DrawMesh_log_calls (fun _ _ => Height.val 0) 1 3 MeshViewer.init).2.1
  · exact (DrawMesh_log_calls (fun _ _ => Height.val 0) 1 3 MeshViewer.init).2.2.2.1

/-- C8: for a grid of at least 2 by 2 every cell centre lies inside the frame: `px` runs from
`margin` to `DWIN_WIDTH - margin` without decreasing, `py` from `30 + DWIN_WIDTH - margin` down
to `30 + margin` without increasing, and the frame rectangle `DrawMeshGrid` draws has these
corners (`margin = 25`, `DWIN_WIDTH = 272`). -/
theorem grid_layout_in_bounds (sizex sizey x y : Nat) (s : MeshViewer)
    (hx2 : 2 ≤ sizex) (hy2 : 2 ≤ sizey) (hx : x ≤ sizex - 1) (hy : y ≤ sizey - 1) :
    margin = 25 ∧ DWIN_WIDTH = 272 ∧
    margin ≤ px sizex x ∧ px sizex x ≤ DWIN_WIDTH - margin ∧
    30 + margin ≤ py sizey y ∧ py sizey y ≤ 30 + DWIN_WIDTH - margin ∧
    px sizex 0 = margin ∧ px sizex ((sizex : Int) - 1) = DWIN_WIDTH - margin ∧
    py sizey 0 = 30 + DWIN_WIDTH - margin ∧ py sizey ((sizey : Int) - 1) = 30 + margin ∧
    Ev.Draw_Rectangle margin (30 + DWIN_WIDTH - margin) (DWIN_WIDTH - margin) (30 + margin) ∈
      (DrawMeshGrid sizex sizey s).log ∧
    (∀ x1 x2 : Nat, x1 ≤ x2 → px sizex x1 ≤ px sizex x2) ∧
    (∀ y1 y2 : Nat, y1 ≤ y2 → py sizey y2 ≤ py sizey y1) := by
  have hkx : (0 : Int) < (sizex : Int) - 1 := by omega
  have hky : (0 : Int) < (sizey : Int) - 1 := by omega
  have hdiv : ∀ (n a : Nat), 2 ≤ n → a ≤ n - 1 →
      0 ≤ ((a : Int) * 222) / ((n : Int) - 1) ∧ ((a : Int) * 222) / ((n : Int) - 1) ≤ 222 := by
    intro n a hn ha
    have hk : (0 : Int) < (n : Int) - 1 := by omega
    refine ⟨Int.ediv_nonneg (by positivity) (le_of_lt hk), ?_⟩
    apply Int.ediv_le_of_le_mul hk
    have : (a : Int) ≤ (n : Int) - 1 := by omega
    nlinarith
  have hlast : ∀ n : Nat, 2 ≤ n → (((n : Int) - 1) * 222) / ((n : Int) - 1) = 222 := by
    intro n hn
    have hk : ((n : Int) - 1) ≠ 0 := by omega
    rw [mul_comm]
    exact Int.mul_ediv_cancel 222 hk
  have hpx0 : px sizex 0 = margin := by
    have := px_eq sizex 0 hx2
    simpa [margin] using this
  have hpy0 : py sizey 0 = 30 + DWIN_WIDTH - margin := by
    have := py_eq sizey 0 hy2
    simpa [margin, DWIN_WIDTH] using this
  have hpx1 : px sizex ((sizex : Int) - 1) = DWIN_WIDTH - margin := by
    have h := px_eq sizex (sizex - 1) hx2
    have hc : ((sizex - 1 : Nat) : Int) = (sizex : Int) - 1 := by omega
    rw [hc, hlast sizex hx2] at h
    rw [h]
    simp [DWIN_WIDTH, margin]
  have hpy1 : py sizey ((sizey : Int) - 1) = 30 + margin := by
    have h := py_eq sizey (sizey - 1) hy2
    have hc : ((sizey - 1 : Nat) : Int) = (sizey : Int) - 1 := by omega
    rw [hc, hlast sizey hy2] at h
    rw [h]
    simp [margin]
  have hrect := (DrawMeshGrid_state sizex sizey s).2.2.2.2.2.2
  rw [hpx0, hpy0, hpx1, hpy1] at hrect
  obtain ⟨hxa, hxb⟩ := hdiv sizex x hx2 hx
  obtain ⟨hya, hyb⟩ := hdiv sizey y hy2 hy
  refine ⟨rfl, rfl, ?_, ?_, ?_, ?_, hpx0, hpx1, hpy0, hpy1, hrect, ?_, ?_⟩
  · rw [px_eq sizex x hx2]; simp only [margin]; omega
  · rw [px_eq sizex x hx2]; simp only [margin, DWIN_WIDTH]; omega
  · rw [py_eq sizey y hy2]; simp only [margin]; omega
  · rw [py_eq sizey y hy2]; simp only [margin, DWIN_WIDTH]; omega
  · intro x1 x2 h12
    rw [px_eq sizex x1 hx2, px_eq sizex x2 hx2]
    have : ((x1 : Int) * 222) / ((sizex : Int) - 1) ≤ ((x2 : Int) * 222) / ((sizex : Int) - 1) :=
      Int.ediv_le_ediv hkx (by omega)
    omega
  · intro y1 y2 h12
    rw [py_eq sizey y1 hy2, py_eq sizey y2 hy2]
    have : ((y1 : Int) * 222) / ((sizey : Int) - 1) ≤ ((y2 : Int) * 222) / ((sizey : Int) - 1) :=
      Int.ediv_le_ediv hky (by omega)
    omega

theorem grid_layout_in_bounds_witness :
    px 5 2 = 136 ∧ py 5 2 = 166 ∧ margin ≤ px 5 2 ∧ px 5 2 ≤ DWIN_WIDTH - margin ∧
      30 + margin ≤ py 5 2 ∧ py 5 2 ≤ 30 + DWIN_WIDTH - margin := by
  have h := grid_layout_in_bounds 5 5 2 2 MeshViewer.init (by decide) (by decide) (by decide)
    (by decide)
  exact ⟨by decide, by decide, h.2.2.1, h.2.2.2.1, h.2.2.2.2.1, h.2.2.2.2.2.1⟩

/-- C10: for a mesh width from 2 to 23 and any column `x` (so for `0 <= x < sizex - 1`),
neighbouring circle centres of a row are at least two
maximum radii apart, hence at least the sum of the two radii drawn for any indices in
`[zmin, zmax]`; `rmax` is `min(margin - 2, floor(0.5 * width / (sizex - 1)))` and is at least
`rmin`. -/
theorem adjacent_circles_apart (sizex sizey x : Nat) (v1 v2 : Int) (s : MeshViewer)
    (h2 : 2 ≤ sizex) (h23 : sizex ≤ 23)
    (hv1 : zmin ≤ v1 ∧ v1 ≤ zmax) (hv2 : zmin ≤ v2 ∧ v2 ≤ zmax) :
    (DrawMeshGrid sizex sizey s).rmax = min (margin - 2) (111 / ((sizex : Int) - 1)) ∧
    rmin ≤ (DrawMeshGrid sizex sizey s).rmax ∧
    2 * (DrawMeshGrid sizex sizey s).rmax ≤
      px (DrawMeshGrid sizex sizey s).sizex ((x + 1 : Nat) : Int) -
        px (DrawMeshGrid sizex sizey s).sizex (x : Int) ∧
    r (DrawMeshGrid sizex sizey s).rmax v1 + r (DrawMeshGrid sizex sizey s).rmax v2 ≤
      px (DrawMeshGrid sizex sizey s).sizex ((x + 1 : Nat) : Int) -
        px (DrawMeshGrid sizex sizey s).sizex (x : Int) := by
  obtain ⟨hsx, -, hrm, -⟩ := DrawMeshGrid_state sizex sizey s
  rw [hsx, hrm]
  obtain ⟨hr5, -, hstep⟩ := rmaxOf_range sizex h2 h23
  simp only [rmin] at hr5
  simp only [zmin, zmax] at hv1 hv2
  have hk : (0 : Int) < (sizex : Int) - 1 := by omega
  have hgap : width / ((sizex : Int) - 1) ≤
      px sizex ((x + 1 : Nat) : Int) - px sizex (x : Int) := by
    rw [px_eq sizex (x + 1) h2, px_eq sizex x h2]
    simp only [width, DWIN_WIDTH, margin]
    have hsplit : ((x + 1 : Nat) : Int) * 222 = (x : Int) * 222 + 222 := by push_cast; ring
    rw [hsplit]
    have hmono : ((x : Int) * 222) / ((sizex : Int) - 1) + 222 / ((sizex : Int) - 1) ≤
        ((x : Int) * 222 + 222) / ((sizex : Int) - 1) := by
      rw [Int.le_ediv_iff_mul_le hk]
      have e1 := Int.ediv_mul_le ((x : Int) * 222) (ne_of_gt hk)
      have e2 := Int.ediv_mul_le (222 : Int) (ne_of_gt hk)
      nlinarith
    norm_num
    omega
  obtain ⟨-, hr1⟩ := r_bounds (rmaxOf sizex) v1 hr5 hv1.1 hv1.2
  obtain ⟨-, hr2⟩ := r_bounds (rmaxOf sizex) v2 hr5 hv2.1 hv2.2
  refine ⟨?_, ?_, ?_, ?_⟩
  · rw [rmaxOf_eq sizex h2]; simp [margin]
  · simpa [rmin] using hr5
  · omega
  · omega

theorem adjacent_circles_apart_witness :
    r (DrawMeshGrid 5 5 MeshViewer.init).rmax 20 + r (DrawMeshGrid 5 5 MeshViewer.init).rmax 20 ≤
      px (DrawMeshGrid 5 5 MeshViewer.init).sizex ((2 + 1 : Nat) : Int) -
        px (DrawMeshGrid 5 5 MeshViewer.init).sizex ((2 : Nat) : Int) :=
  (adjacent_circles_apart 5 5 2 20 20 MeshViewer.init (by decide) (by decide) (by decide)
    (by decide)).2.2.2

/-- C3 (amended): for a mesh width from 2 to 23 and every height `z`, NaN included, the radius
`DrawMeshPoint` passes to `Draw_FillCircle` is `r(v)` for the clamped index `v` and lies between
`rmin` and the `rmax` that `DrawMeshGrid` stored, `rmax = min(margin - 2, 0.5*width/(sizex-1))`
truncated. -/
theorem radius_in_bounds (sizex sizey x y : Nat) (z : Height) (s : MeshViewer)
    (h2 : 2 ≤ sizex) (h23 : sizex ≤ 23) :
    (DrawMeshPoint x y z (DrawMeshGrid sizex sizey s)).log =
      (DrawMeshGrid sizex sizey s).log ++ [Ev.DrawMeshPoint x y z,
        Ev.Draw_FillCircle (heightIndex z) (px sizex x) (py sizey y)
          (r (DrawMeshGrid sizex sizey s).rmax (heightIndex z))] ∧
    (DrawMeshGrid sizex sizey s).rmax = rmaxOf sizex ∧
    (DrawMeshGrid sizex sizey s).rmax = min (margin - 2) (111 / ((sizex : Int) - 1)) ∧
    rmin ≤ r (DrawMeshGrid sizex sizey s).rmax (heightIndex z) ∧
    r (DrawMeshGrid sizex sizey s).rmax (heightIndex z) ≤ (DrawMeshGrid sizex sizey s).rmax := by
  obtain ⟨hsx, hsy, hrm, -⟩ := DrawMeshGrid_state sizex sizey s
  have hlog := (DrawMeshPoint_state x y z (DrawMeshGrid sizex sizey s)).2.2.2.2.2
  rw [hsx, hsy] at hlog
  obtain ⟨hr5, -, -⟩ := rmaxOf_range sizex h2 h23
  simp only [rmin] at hr5
  obtain ⟨hv1, hv2⟩ := heightIndex_bounds z
  obtain ⟨hb1, hb2⟩ := r_bounds (rmaxOf sizex) (heightIndex z) hr5 hv1 hv2
  refine ⟨hlog, hrm, ?_, ?_, ?_⟩
  · rw [hrm, rmaxOf_eq sizex h2]; simp [margin]
  · rw [hrm]; simpa [rmin] using hb1
  · rw [hrm]; exact hb2

theorem radius_in_bounds_witness :
    rmin ≤ r (DrawMeshGrid 5 5 MeshViewer.init).rmax (heightIndex Height.nan) ∧
      r (DrawMeshGrid 5 5 MeshViewer.init).rmax (heightIndex Height.nan) ≤
        (DrawMeshGrid 5 5 MeshViewer.init).rmax :=
  (radius_in_bounds 5 5 0 0 Height.nan MeshViewer.init (by decide) (by decide)).2.2.2

/-- C3 as stated fails for a mesh width of 24: `DrawMeshGrid` stores `rmax = 4`, below `rmin`,
and the radius drawn for the height 1.00 is 4, below `rmin`, while the radius drawn for the
height -1.00 is 5, above `rmax`. -/
theorem radius_out_of_bounds_width_24 :
    (DrawMeshGrid 24 24 MeshViewer.init).rmax = 4 ∧
    heightIndex (Height.val 1) = 20 ∧ heightIndex (Height.val (-1)) = -20 ∧
    ¬ (rmin ≤ r (DrawMeshGrid 24 24 MeshViewer.init).rmax (heightIndex (Height.val 1))) ∧
    ¬ (r (DrawMeshGrid 24 24 MeshViewer.init).rmax (heightIndex (Height.val (-1))) ≤
        (DrawMeshGrid 24 24 MeshViewer.init).rmax) := by
  have hrm : (DrawMeshGrid 24 24 MeshViewer.init).rmax = 4 := by
    rw [(DrawMeshGrid_state 24 24 MeshViewer.init).2.2.1, rmaxOf_eq 24 (by decide)]
    decide
  have hp : heightIndex (Height.val 1) = 20 := heightIndex_samples.1
  have hn : heightIndex (Height.val (-1)) = -20 := heightIndex_samples.2.1
  rw [hrm, hp, hn]
  decide

/-- C4 (amended): for a mesh width from 2 to 23 and two heights `z1 <= z2` whose scaled
heights `round(z * 100)`, computed with the `float` product, fit the `int16_t` they are stored
in, the radius drawn for `z1` is at most the radius drawn for `z2`; every height of at most
327 mm in absolute value is such a height. -/
theorem radius_monotone (sizex sizey : Nat) (s : MeshViewer) (z1 z2 : ℚ)
    (h2 : 2 ≤ sizex) (h23 : sizex ≤ 23) (hz : z1 ≤ z2)
    (hlo : -32768 ≤ scaledHeight z1) (hhi : scaledHeight z2 ≤ 32767) :
    r (DrawMeshGrid sizex sizey s).rmax (heightIndex (Height.val z1)) ≤
      r (DrawMeshGrid sizex sizey s).rmax (heightIndex (Height.val z2)) ∧
    (∀ q : ℚ, |q| ≤ 327 → -32768 ≤ scaledHeight q ∧ scaledHeight q ≤ 32767) := by
  refine ⟨?_, scaledHeight_range⟩
  rw [(DrawMeshGrid_state sizex sizey s).2.2.1]
  obtain ⟨hr5, -, -⟩ := rmaxOf_range sizex h2 h23
  simp only [rmin] at hr5
  have hround : scaledHeight z1 ≤ scaledHeight z2 := scaledHeight_mono _ _ hz
  have hidx : heightIndex (Height.val z1) ≤ heightIndex (Height.val z2) :=
    heightIndex_mono z1 z2 hz hlo (by omega) (by omega) hhi
  exact r_mono (rmaxOf sizex) _ _ hr5 (heightIndex_bounds _).1 hidx

theorem radius_monotone_witness :
    r (DrawMeshGrid 5 5 MeshViewer.init).rmax (heightIndex (Height.val (-1))) ≤
      r (DrawMeshGrid 5 5 MeshViewer.init).rmax (heightIndex (Height.val 1)) :=
  (radius_monotone 5 5 MeshViewer.init (-1) 1 (by decide) (by decide) (by norm_num)
    (scaledHeight_range (-1) (by norm_num [abs_le])).1
    (scaledHeight_range 1 (by norm_num [abs_le])).2).1

/-- C4 as stated fails: with a mesh width of 24 the radius drawn for the height -1.00 is 5 and
the radius drawn for the height 1.00 is 4; and with a mesh width of 5 the radius drawn for the
height 0 is 14 while the radius drawn for the height 400 is 5, and the radius drawn for the
height -327.68499755859375, whose `float` product rounds to -32769, is 23. -/
theorem radius_not_monotone :
    ((-1 : ℚ) ≤ 1 ∧
      ¬ (r (DrawMeshGrid 24 24 MeshViewer.init).rmax (heightIndex (Height.val (-1))) ≤
          r (DrawMeshGrid 24 24 MeshViewer.init).rmax (heightIndex (Height.val 1)))) ∧
    ((0 : ℚ) ≤ 400 ∧
      ¬ (r (DrawMeshGrid 5 5 MeshViewer.init).rmax (heightIndex (Height.val 0)) ≤
          r (DrawMeshGrid 5 5 MeshViewer.init).rmax (heightIndex (Height.val 400)))) ∧
    ((-(10737582 / 32768) : ℚ) ≤ 0 ∧
      ¬ (r (DrawMeshGrid 5 5 MeshViewer.init).rmax
            (heightIndex (Height.val (-(10737582 / 32768)))) ≤
          r (DrawMeshGrid 5 5 MeshViewer.init).rmax (heightIndex (Height.val 0)))) := by
  have hrm : (DrawMeshGrid 24 24 MeshViewer.init).rmax = 4 := by
    rw [(DrawMeshGrid_state 24 24 MeshViewer.init).2.2.1, rmaxOf_eq 24 (by decide)]
    decide
  have hrm5 : (DrawMeshGrid 5 5 MeshViewer.init).rmax = 23 := by
    rw [(DrawMeshGrid_state 5 5 MeshViewer.init).2.2.1, rmaxOf_eq 5 (by decide)]
    decide
  have hp : heightIndex (Height.val 1) = 20 := heightIndex_samples.1
  have hn : heightIndex (Height.val (-1)) = -20 := heightIndex_samples.2.1
  have h0 : heightIndex (Height.val 0) = 0 := heightIndex_samples.2.2.1
  have h400 : heightIndex (Height.val 400) = -20 := heightIndex_samples.2.2.2
  rw [hrm, hrm5, hp, hn, h0, h400, heightIndex_boundary]
  refine ⟨⟨by norm_num, by decide⟩, ⟨by norm_num, by decide⟩, ⟨by norm_num, by decide⟩⟩

/-- C5: at the height 400.00 the rounded value 40000 does not fit the `int16_t` it is stored in
before `LIMIT` runs; the index passed on is `zmin = -20`, where clamping the rounded value gives
`zmax = 20`, and it is below the index 0 of the smaller height 0. -/
theorem heightIndex_at_400 :
    roundAway (400 * 100) = 40000 ∧ toInt16 40000 = -25536 ∧
    heightIndex (Height.val 400) = -20 ∧
    LIMIT (roundAway (400 * 100)) zmin zmax = 20 ∧
    heightIndex (Height.val 0) = 0 ∧
    (DrawMeshPoint 0 0 (Height.val 400) (DrawMeshGrid 5 5 MeshViewer.init)).log =
      (DrawMeshGrid 5 5 MeshViewer.init).log ++ [Ev.DrawMeshPoint 0 0 (Height.val 400),
        Ev.Draw_FillCircle (-20) (px 5 0) (py 5 0) 5] := by
  have hr : roundAway (400 * 100) = 40000 := by norm_num [roundAway]
  have h400 : heightIndex (Height.val 400) = -20 := heightIndex_samples.2.2.2
  have h0 : heightIndex (Height.val 0) = 0 := heightIndex_samples.2.2.1
  have hrm5 : (DrawMeshGrid 5 5 MeshViewer.init).rmax = 23 := by
    rw [(DrawMeshGrid_state 5 5 MeshViewer.init).2.2.1, rmaxOf_eq 5 (by decide)]
    decide
  obtain ⟨hsx, hsy, -⟩ := DrawMeshGrid_state 5 5 MeshViewer.init
  refine ⟨hr, by decide, h400, ?_, h0, ?_⟩
  · rw [hr]; decide
  · rw [(DrawMeshPoint_state 0 0 (Height.val 400) (DrawMeshGrid 5 5 MeshViewer.init)).2.2.2.2.2,
      hsx, hsy, hrm5, h400]
    have : r 23 (-20) = 5 := by decide
    rw [this]
    rfl

/-- C6 (amended): for sizes other than 1, after `DrawMesh` on a mesh whose samples are all
non-NaN, with smallest sample `lo` at most 100 and largest sample `hi` at least -100 (so the mesh
is not empty), the run completes, `min` is `lo` and `max` is `hi`; the two do not depend on the
state before the call; and a NaN sample changes neither. -/
theorem DrawMesh_min_max (zval : Nat → Nat → Height) (q : Nat → Nat → ℚ)
    (csizex csizey : Nat) (s : MeshViewer) (lo hi : ℚ)
    (hx : csizex ≠ 1) (hy : csizey ≠ 1)
    (hval : ∀ x y, x < csizex → y < csizey → zval x y = Height.val (q x y))
    (hlo : IsLeast {v | ∃ x y, x < csizex ∧ y < csizey ∧ q x y = v} lo)
    (hhi : IsGreatest {v | ∃ x y, x < csizex ∧ y < csizey ∧ q x y = v} hi)
    (hlo100 : lo ≤ 100) (hhi100 : -100 ≤ hi) :
    ∃ u : MeshViewer, DrawMesh_checked zval csizex csizey s = some u ∧
      u.min = Height.val lo ∧ u.max = Height.val hi ∧
      (∀ t : MeshViewer, ∃ w : MeshViewer, DrawMesh_checked zval csizex csizey t = some w ∧
        w.min = u.min ∧ w.max = u.max) ∧
      (∀ (x y : Nat) (t : MeshViewer), t.sizex ≠ 1 → t.sizey ≠ 1 →
        ∃ w : MeshViewer, DrawMeshPoint_checked x y Height.nan t = some w ∧
          w.min = t.min ∧ w.max = t.max) ∧
      (∀ (x y : Nat) (t w : MeshViewer), DrawMeshPoint_checked x y Height.nan t = some w →
        w.min = t.min ∧ w.max = t.max) := by
  refine ⟨DrawMesh zval csizex csizey s, DrawMesh_checked_eq zval csizex csizey s hx hy, ?_⟩
  have hT := Tracks_DrawMesh zval csizex csizey s
  obtain ⟨⟨m, hm, hleast⟩, ⟨M, hM, hgreat⟩⟩ := hT
  have hsample : ∀ v : ℚ, (∃ a b, (a < csizex ∧ b < csizey) ∧ zval a b = Height.val v) ↔
      ∃ x y, x < csizex ∧ y < csizey ∧ q x y = v := by
    intro v
    constructor
    · rintro ⟨a, b, ⟨ha, hb⟩, hz⟩
      rw [hval a b ha hb] at hz
      injection hz with hz
      exact ⟨a, b, ha, hb, hz⟩
    · rintro ⟨a, b, ha, hb, hz⟩
      exact ⟨a, b, ⟨ha, hb⟩, by rw [hval a b ha hb, hz]⟩
  have hmlo : m = lo := by
    apply le_antisymm
    · exact hleast.2 (Set.mem_insert_of_mem _ ((hsample lo).mpr hlo.1))
    · rcases hleast.1 with h100 | hmem
      · rw [h100]; exact hlo100
      · exact hlo.2 ((hsample m).mp hmem)
  have hMhi : M = hi := by
    apply le_antisymm
    · rcases hgreat.1 with h100 | hmem
      · rw [h100]; exact hhi100
      · exact hhi.2 ((hsample M).mp hmem)
    · exact hgreat.2 (Set.mem_insert_of_mem _ ((hsample hi).mpr hhi.1))
  refine ⟨by rw [hm, hmlo], by rw [hM, hMhi], ?_, ?_, ?_⟩
  · intro t
    exact ⟨DrawMesh zval csizex csizey t, DrawMesh_checked_eq zval csizex csizey t hx hy,
      Tracks_unique zval _ _ _ (Tracks_DrawMesh zval csizex csizey s)
        (Tracks_DrawMesh zval csizex csizey t)⟩
  · intro x y t htx hty
    have hw := DrawMeshPoint_checked_eq x y Height.nan t htx hty
    obtain ⟨h1, h2⟩ := DrawMeshPoint_checked_min_max x y Height.nan t _ hw
    refine ⟨_, hw, ?_, ?_⟩
    · rw [h1]; exact (NOMORE_NOLESS_nan t.min).1
    · rw [h2]; exact (NOMORE_NOLESS_nan t.max).2
  · intro x y t w hw
    obtain ⟨h1, h2⟩ := DrawMeshPoint_checked_min_max x y Height.nan t w hw
    rw [h1, h2]
    exact ⟨(NOMORE_NOLESS_nan t.min).1, (NOMORE_NOLESS_nan t.max).2⟩

theorem DrawMesh_min_max_witness :
    ∃ u : MeshViewer,
      DrawMesh_checked (fun x y => Height.val ((x : ℚ) + 2 * (y : ℚ))) 2 2 MeshViewer.init =
        some u ∧ u.min = Height.val 0 ∧ u.max = Height.val 3 := by
  obtain ⟨u, h1, h2, h3, -⟩ := DrawMesh_min_max (fun x y => Height.val ((x : ℚ) + 2 * (y : ℚ)))
    (fun x y => (x : ℚ) + 2 * (y : ℚ)) 2 2 MeshViewer.init 0 3 (by decide) (by decide)
    (fun _ _ _ _ => rfl)
    ⟨⟨0, 0, by decide, by decide, by norm_num⟩, by
      rintro v ⟨x, y, -, -, rfl⟩
      show (0 : ℚ) ≤ (x : ℚ) + 2 * (y : ℚ)
      positivity⟩
    ⟨⟨1, 1, by decide, by decide, by norm_num⟩, by
      rintro v ⟨x, y, hx, hy, rfl⟩
      have h1 : (x : ℚ) ≤ 1 := by exact_mod_cast Nat.lt_succ_iff.mp hx
      have h2 : (y : ℚ) ≤ 1 := by exact_mod_cast Nat.lt_succ_iff.mp hy
      show (x : ℚ) + 2 * (y : ℚ) ≤ 3
      linarith⟩
    (by norm_num) (by norm_num)
  exact ⟨u, h1, h2, h3⟩

/-- C6 as stated fails when every sample is above 100: on the 2 by 2 mesh whose samples are all
150 the smallest sample is 150, and `min` ends at the 100 that `DrawMeshGrid` starts it from;
likewise `max` ends at -100 when all samples are -150.  It also fails on a non-empty mesh with a
size of 1, where `DrawMeshGrid` divides by zero and the run has no result. -/
theorem DrawMesh_min_max_sentinel :
    Option.map MeshViewer.min (DrawMesh_checked (fun _ _ => Height.val 150) 2 2 MeshViewer.init)
      = some (Height.val 100) ∧
    Height.val 100 ≠ Height.val 150 ∧
    IsLeast {v : ℚ | ∃ x y : Nat, x < 2 ∧ y < 2 ∧ (150 : ℚ) = v} 150 ∧
    Option.map MeshViewer.max
      (DrawMesh_checked (fun _ _ => Height.val (-150)) 2 2 MeshViewer.init)
      = some (Height.val (-100)) ∧
    Height.val (-100) ≠ Height.val (-150) ∧
    DrawMesh_checked (fun _ _ => Height.val 0) 1 3 MeshViewer.init = none := by
  have h1 : (DrawMesh (fun _ _ => Height.val 150) 2 2 MeshViewer.init).min = Height.val 100 := by
    simp [DrawMesh, DrawMeshGrid, DrawMeshPoint, LOOP_L_N, LOOP_S_L_N, loopN, MeshViewer.emit,
      NOMORE, NOLESS, Height.lt]
    norm_num
  have h2 : (DrawMesh (fun _ _ => Height.val (-150)) 2 2 MeshViewer.init).max =
      Height.val (-100) := by
    simp [DrawMesh, DrawMeshGrid, DrawMeshPoint, LOOP_L_N, LOOP_S_L_N, loopN, MeshViewer.emit,
      NOMORE, NOLESS, Height.lt]
    norm_num
  refine ⟨?_, ?_, ?_, ?_, ?_, (DrawMesh_checked_one _ 3 _).1⟩
  · rw [DrawMesh_checked_eq _ 2 2 _ (by decide) (by decide), Option.map_some', h1]
  · intro h
    injection h with h
    norm_num at h
  · refine ⟨⟨0, 0, by decide, by decide, rfl⟩, ?_⟩
    rintro v ⟨_, _, -, -, rfl⟩
    exact le_refl _
  · rw [DrawMesh_checked_eq _ 2 2 _ (by decide) (by decide), Option.map_some', h2]
  · intro h
    injection h with h
    norm_num at h

end ProUI
